import Mathlib

/-!
Verification development for `CreateLakeParamTisza.c` (VIC lake-parameter
preprocessing).  The C program's grids of `double` are embedded as total
functions `ℕ × ℕ → ℚ` over 1-based cell coordinates `(i, j)` with
`1 ≤ i ≤ size_x`, `1 ≤ j ≤ size_y`, matching the 1-based indexing of the
Pelletier fill/routing code.  Elevation comparisons in the source are exact
floating comparisons; they are embedded as decidable rational comparisons.
Quantities produced through `pow(x, 1.1)` and `sqrt` are transcendental and
live in `ℝ` (`Real.rpow`, `Real.sqrt`); every branch condition of the source
stays in `ℚ` so that concrete runs evaluate.
-/

namespace VICPre

/-- The fill increment `#define fillincrement 0.01` of the source. -/
def fillincrement : ℚ := 1 / 100

/-- The literal `#define oneoversqrt2 0.707106781187` of the source. -/
def oneoversqrt2 : ℝ := 0.707106781187

/-- Neighbor table `idown` of `setupgridneighbors`: `idown[i] = i - 1`
overridden by `idown[1] = 1`. -/
def idown (i : ℕ) : ℕ := if i = 1 then 1 else i - 1

/-- Neighbor table `iup` of `setupgridneighbors`: `iup[i] = i + 1`
overridden by `iup[size_x] = size_x`. -/
def iup (sx i : ℕ) : ℕ := if i = sx then sx else i + 1

/-- Neighbor table `jdown` of `setupgridneighbors`: `jdown[j] = j - 1`
overridden by `jdown[1] = 1`. -/
def jdown (j : ℕ) : ℕ := if j = 1 then 1 else j - 1

/-- Neighbor table `jup` of `setupgridneighbors`: `jup[j] = j + 1`
overridden by `jup[size_y] = size_y`. -/
def jup (sy j : ℕ) : ℕ := if j = sy then sy else j + 1

/-- A cell `(i, j)` lies in the `size_x × size_y` lattice (1-based, as in the
Pelletier code). -/
def inGrid (sx sy : ℕ) (c : ℕ × ℕ) : Prop :=
  1 ≤ c.1 ∧ c.1 ≤ sx ∧ 1 ≤ c.2 ∧ c.2 ≤ sy

instance (sx sy : ℕ) (c : ℕ × ℕ) : Decidable (inGrid sx sy c) := by
  unfold inGrid; infer_instance

/-- A cell is strictly interior: the condition
`(i>1)&&(j>1)&&(i<lattice_size_x)&&(j<lattice_size_y)` of
`fillinpitsandflats`. -/
def interior (sx sy : ℕ) (c : ℕ × ℕ) : Prop :=
  1 < c.1 ∧ c.1 < sx ∧ 1 < c.2 ∧ c.2 < sy

instance (sx sy : ℕ) (c : ℕ × ℕ) : Decidable (interior sx sy c) := by
  unfold interior; infer_instance

/-- A cell of the grid that lies on its outer ring. -/
def onBorder (sx sy : ℕ) (c : ℕ × ℕ) : Prop :=
  inGrid sx sy c ∧ (c.1 = 1 ∨ c.1 = sx ∨ c.2 = 1 ∨ c.2 = sy)

instance (sx sy : ℕ) (c : ℕ × ℕ) : Decidable (onBorder sx sy c) := by
  unfold onBorder; infer_instance

/-- The 8 clamped neighbors of a cell, in the textual order in which
`fillinpitsandflats` examines them. -/
def nbrList (sx sy : ℕ) (c : ℕ × ℕ) : List (ℕ × ℕ) :=
  [(iup sx c.1, c.2), (idown c.1, c.2), (c.1, jup sy c.2), (c.1, jdown c.2),
   (iup sx c.1, jup sy c.2), (idown c.1, jup sy c.2),
   (idown c.1, jdown c.2), (iup sx c.1, jdown c.2)]

/-- The minimum computed at the head of `fillinpitsandflats`: starting from
the cell's own value, each of the 8 clamped neighbors replaces the running
minimum when its value is below it and is not `nodata`.  (The source guards
the initialization `min = topo[i][j]` by `topo[i][j] != nodata`; the raise
that consumes `min` also requires the center not to be nodata, so the guard
is immaterial for the raise and the initialization is embedded
unconditionally.) -/
def pitMin (sx sy : ℕ) (nd : ℚ) (g : ℕ × ℕ → ℚ) (c : ℕ × ℕ) : ℚ :=
  (nbrList sx sy c).foldl (fun m n => if g n < m ∧ g n ≠ nd then g n else m)
    (g c)

/-- The raise condition of `fillinpitsandflats`:
`(topo[i][j] <= min) && (topo[i][j] != nodata) && (i>1) && (j>1) &&
(i<lattice_size_x) && (j<lattice_size_y)`. -/
def Raisable (sx sy : ℕ) (nd : ℚ) (g : ℕ × ℕ → ℚ) (c : ℕ × ℕ) : Prop :=
  g c ≤ pitMin sx sy nd g c ∧ g c ≠ nd ∧ interior sx sy c

instance (sx sy : ℕ) (nd : ℚ) (g : ℕ × ℕ → ℚ) (c : ℕ × ℕ) :
    Decidable (Raisable sx sy nd g c) := by
  unfold Raisable; infer_instance

/-- One raise of the sink/flat elimination:
`topo[i][j] = min + fillincrement` at some cell satisfying the raise
condition.  The recursive calls of `fillinpitsandflats` (and the double loop
of `fillin` driving it) realize one particular sequence of such raises, so
the states the C pass can pass through are exactly the states reachable by
this relation, and the states at which the C pass can stop are exactly its
normal forms. -/
def FillStep (sx sy : ℕ) (nd : ℚ) (g g' : ℕ × ℕ → ℚ) : Prop :=
  ∃ c, Raisable sx sy nd g c ∧
    g' = Function.update g c (pitMin sx sy nd g c + fillincrement)

/-- Reachability by raises of the sink/flat elimination. -/
def FillReach (sx sy : ℕ) (nd : ℚ) : (ℕ × ℕ → ℚ) → (ℕ × ℕ → ℚ) → Prop :=
  Relation.ReflTransGen (FillStep sx sy nd)

/-- The sink/flat elimination admits an infinite sequence of raises from the
starting grid `g0` (so the recursion of `fillinpitsandflats` can run
forever). -/
def FillDiverges (sx sy : ℕ) (nd : ℚ) (g0 : ℕ × ℕ → ℚ) : Prop :=
  ∃ f : ℕ → ℕ × ℕ → ℚ, f 0 = g0 ∧ ∀ n, FillStep sx sy nd (f n) (f (n + 1))

/-- A cell of the grid holding a usable (non-nodata) elevation. -/
def ValidCell (sx sy : ℕ) (nd : ℚ) (g : ℕ × ℕ → ℚ) (c : ℕ × ℕ) : Prop :=
  inGrid sx sy c ∧ g c ≠ nd

instance (sx sy : ℕ) (nd : ℚ) (g : ℕ × ℕ → ℚ) (c : ℕ × ℕ) :
    Decidable (ValidCell sx sy nd g c) := by
  unfold ValidCell; infer_instance

/-- `AnchoredK sx sy V k c`: within the cells satisfying `V`, the cell `c`
reaches a border cell through at most `k` clamped-neighbor steps.  Existence
of such a bound for every valid cell says every 8-connected component of
valid cells touches the grid border. -/
inductive AnchoredK (sx sy : ℕ) (V : ℕ × ℕ → Prop) : ℕ → ℕ × ℕ → Prop
  | border (c : ℕ × ℕ) : V c → onBorder sx sy c → AnchoredK sx sy V 0 c
  | step (k : ℕ) (c n : ℕ × ℕ) : V c → n ∈ nbrList sx sy c →
      AnchoredK sx sy V k n → AnchoredK sx sy V (k + 1) c

/-- The finite set of cells of a `size_x × size_y` grid (1-based). -/
def gridFinset (sx sy : ℕ) : Finset (ℕ × ℕ) :=
  Finset.Icc 1 sx ×ˢ Finset.Icc 1 sy

/-- A 3 × 3 grid whose center cell is the only non-nodata cell (nodata
`-9999`): the input on which the recursion of `fillinpitsandflats` never
terminates. -/
def isolatedCenterGrid : ℕ × ℕ → ℚ :=
  fun c => if c = (2, 2) then 5 else -9999

/-- The infinite raise chain on `isolatedCenterGrid`: the center cell is
raised by `fillincrement` forever. -/
def isolatedCenterChain (n : ℕ) : ℕ × ℕ → ℚ :=
  fun c => if c = (2, 2) then 5 + n * fillincrement else -9999

/-- A 3 × 3 grid with a central pit and all cells valid: every cell's
component of valid cells touches the border, so the fill terminates on it. -/
def anchoredWitnessGrid : ℕ × ℕ → ℚ :=
  fun c => if c = (2, 2) then 0 else 1

/-- A 3 × 3 all-valid grid whose center sits in a shallow pit
(`0` against a ring of `1`). -/
def c2PitGrid : ℕ × ℕ → ℚ :=
  fun c => if c = (2, 2) then 0 else 1

/-- The grid obtained from `c2PitGrid` by the single raise the sink/flat
elimination performs on it. -/
def c2FilledGrid : ℕ × ℕ → ℚ :=
  Function.update c2PitGrid (2, 2)
    (pitMin 3 3 (-9999) c2PitGrid (2, 2) + fillincrement)

/-- Direction target `k` of `mfdflowroute` at cell `(i, j)`, in the order of
the source's `flow1` … `flow8`: `(iup,j)`, `(idown,j)`, `(i,jup)`,
`(i,jdown)`, `(iup,jup)`, `(iup,jdown)`, `(idown,jup)`, `(idown,jdown)`.
Directions `0..3` are cardinal, `4..7` diagonal. -/
def mfdTarget (sx sy : ℕ) (c : ℕ × ℕ) (k : Fin 8) : ℕ × ℕ :=
  match k.val with
  | 0 => (iup sx c.1, c.2)
  | 1 => (idown c.1, c.2)
  | 2 => (c.1, jup sy c.2)
  | 3 => (c.1, jdown c.2)
  | 4 => (iup sx c.1, jup sy c.2)
  | 5 => (iup sx c.1, jdown c.2)
  | 6 => (idown c.1, jup sy c.2)
  | _ => (idown c.1, jdown c.2)

/-- The per-direction guard of `mfdflowroute`:
`topo[i][j] > topo[target] && topo[target] != nodata`. -/
def mfdLower (sx sy : ℕ) (nd : ℚ) (topo : ℕ × ℕ → ℚ) (c : ℕ × ℕ)
    (k : Fin 8) : Prop :=
  topo c > topo (mfdTarget sx sy c k) ∧ topo (mfdTarget sx sy c k) ≠ nd

instance (sx sy : ℕ) (nd : ℚ) (topo : ℕ × ℕ → ℚ) (c : ℕ × ℕ) (k : Fin 8) :
    Decidable (mfdLower sx sy nd topo c k) := by
  unfold mfdLower; infer_instance

/-- The per-direction summand of `mfdflowroute`'s `tot`:
`pow(topo[i][j]-topo[target], 1.1)` for a cardinal direction and
`pow((topo[i][j]-topo[target])*oneoversqrt2, 1.1)` for a diagonal one. -/
noncomputable def mfdWeight (sx sy : ℕ) (topo : ℕ × ℕ → ℚ) (c : ℕ × ℕ)
    (k : Fin 8) : ℝ :=
  if k.val < 4 then
    ((topo c - topo (mfdTarget sx sy c k) : ℚ) : ℝ) ^ (1.1 : ℝ)
  else
    (((topo c - topo (mfdTarget sx sy c k) : ℚ) : ℝ) * oneoversqrt2) ^
      (1.1 : ℝ)

/-- `tot` of `mfdflowroute`: the eight guarded `tot += pow(...)` additions. -/
noncomputable def mfdTot (sx sy : ℕ) (nd : ℚ) (topo : ℕ × ℕ → ℚ)
    (c : ℕ × ℕ) : ℝ :=
  ∑ k : Fin 8,
    if mfdLower sx sy nd topo c k then mfdWeight sx sy topo c k else 0

/-- The flow fractions `flow1[i][j]` … `flow8[i][j]` of `mfdflowroute`: all
zero at a nodata cell, otherwise `pow(...)/tot` toward each strictly lower
valid target and zero elsewhere. -/
noncomputable def mfdFrac (sx sy : ℕ) (nd : ℚ) (topo : ℕ × ℕ → ℚ)
    (c : ℕ × ℕ) (k : Fin 8) : ℝ :=
  if topo c = nd then 0
  else if mfdLower sx sy nd topo c k then
    mfdWeight sx sy topo c k / mfdTot sx sy nd topo c
  else 0

/-- The eight redistribution statements
`flow[target] += flow[i][j]*flowk[i][j]` at the tail of `mfdflowroute`,
executed in source order. -/
noncomputable def mfdRoute (sx sy : ℕ) (nd : ℚ) (topo : ℕ × ℕ → ℚ)
    (c : ℕ × ℕ) (fl : ℕ × ℕ → ℝ) : ℕ × ℕ → ℝ :=
  (List.finRange 8).foldl
    (fun f k => Function.update f (mfdTarget sx sy c k)
      (f (mfdTarget sx sy c k) + f c * mfdFrac sx sy nd topo c k)) fl

/-- The initial flow grid of `fillin`: `flow[i][j] = deltax*deltay` at every
lattice cell, nodata or not. -/
noncomputable def flowInit (sx sy : ℕ) (dx dy : ℝ) : ℕ × ℕ → ℝ :=
  fun c => if inGrid sx sy c then dx * dy else 0

/-- The routing sweep at the tail of `fillin`: `mfdflowroute` applied to the
cells in the given processing order (the source processes the `topovec`
index ordering from highest filled elevation to lowest). -/
noncomputable def mfdSweep (sx sy : ℕ) (nd : ℚ) (topo : ℕ × ℕ → ℚ)
    (order : List (ℕ × ℕ)) (fl : ℕ × ℕ → ℝ) : ℕ × ℕ → ℝ :=
  order.foldl (fun f c => mfdRoute sx sy nd topo c f) fl

/-- A sink of the router: a nodata cell, or a cell with no strictly lower
valid target; it keeps its accumulated flow and redistributes nothing. -/
def mfdSink (sx sy : ℕ) (nd : ℚ) (topo : ℕ × ℕ → ℚ) (c : ℕ × ℕ) : Prop :=
  topo c = nd ∨ ∀ k : Fin 8, ¬ mfdLower sx sy nd topo c k

instance (sx sy : ℕ) (nd : ℚ) (topo : ℕ × ℕ → ℚ) (c : ℕ × ℕ) :
    Decidable (mfdSink sx sy nd topo c) := by
  unfold mfdSink; infer_instance

/-- Modelled from the spec sentence behind C1: the directional slope proxy
`(elevation_drop / neighbor_distance) ^ 1.1` with `neighbor_distance` the
metric cell size `deltax` or `deltay` for axis-aligned directions and the
Euclidean diagonal metric cell size for diagonal ones. -/
noncomputable def specProxy (dx dy : ℝ) (drop : ℚ) (k : Fin 8) : ℝ :=
  if k.val < 2 then ((drop : ℝ) / dx) ^ (1.1 : ℝ)
  else if k.val < 4 then ((drop : ℝ) / dy) ^ (1.1 : ℝ)
  else ((drop : ℝ) / Real.sqrt (dx ^ 2 + dy ^ 2)) ^ (1.1 : ℝ)

/-- Modelled from the spec sentence behind C1: the sum of the spec's proxies
over the strictly lower valid directions. -/
noncomputable def specTot (sx sy : ℕ) (nd : ℚ) (topo : ℕ × ℕ → ℚ)
    (c : ℕ × ℕ) (dx dy : ℝ) : ℝ :=
  ∑ k : Fin 8,
    if mfdLower sx sy nd topo c k then
      specProxy dx dy (topo c - topo (mfdTarget sx sy c k)) k
    else 0

/-- Modelled from the spec sentence behind C1: outflow fractions obtained by
normalizing the spec's proxies by their sum. -/
noncomputable def specFrac (sx sy : ℕ) (nd : ℚ) (topo : ℕ × ℕ → ℚ)
    (c : ℕ × ℕ) (dx dy : ℝ) (k : Fin 8) : ℝ :=
  if topo c = nd then 0
  else if mfdLower sx sy nd topo c k then
    specProxy dx dy (topo c - topo (mfdTarget sx sy c k)) k /
      specTot sx sy nd topo c dx dy
  else 0

/-- The 3 × 3 grid refuting C1: the center `1` drains to two equal drops,
one along the x cardinal direction and one along the y cardinal direction;
all other neighbors are higher. -/
def c1Grid : ℕ × ℕ → ℚ :=
  fun c =>
    if c = (2, 2) then 1
    else if c = (3, 2) then 0
    else if c = (2, 3) then 0
    else 2

/-- The 1 × 1 nodata grid refuting C4: its single cell keeps its initial
`deltax*deltay` flow although no cell is active. -/
def c4NodataGrid : ℕ × ℕ → ℚ := fun _ => -9999

/-- A 1 × 1 grid with a single valid cell, used to witness the amended flow
conservation statement. -/
def c4OneCellGrid : ℕ × ℕ → ℚ := fun _ => 5

/-- The constant `#define VERTRES 2.3` (assumed vertical resolution, m). -/
def VERTRES : ℝ := 2.3

/-- `length_diagonal = sqrt(pow(dx,2) + pow(dy,2))` of `Topindex`. -/
noncomputable def lengthDiagonal (dx dy : ℝ) : ℝ := Real.sqrt (dx ^ 2 + dy ^ 2)

/-- The fixed tan(beta) floor of `Topindex`:
`(4*((0.5*VERTRES)/length_diagonal) + 2*((0.5*VERTRES)/dx) +
2*((0.5*VERTRES)/dy)) / NNEIGHBORS` with `NNEIGHBORS = 8`. -/
noncomputable def minTanbeta (dx dy : ℝ) : ℝ :=
  (4 * ((0.5 * VERTRES) / lengthDiagonal dx dy) +
    2.0 * ((0.5 * VERTRES) / dx) + 2.0 * ((0.5 * VERTRES) / dy)) / 8

/-- The per-neighbor guard of `Topindex`'s accumulation loop:
`neighbor_elev[n] < celev && neighbor_elev[n] != nodata`, where
`neighbor_elev[n]` is the neighbor's elevation after out-of-bounds and
nodata neighbors have been replaced by `nodata`. -/
def tiLower (nd celev : ℚ) (ne : Fin 8 → ℚ) (n : Fin 8) : Prop :=
  ne n < celev ∧ ne n ≠ nd

instance (nd celev : ℚ) (ne : Fin 8 → ℚ) (n : Fin 8) :
    Decidable (tiLower nd celev ne n) := by
  unfold tiLower; infer_instance

/-- The per-direction contour-length weight of `Topindex`:
`0.2*dx+0.2*dy` for the diagonal directions `n = 0,2,4,6`, `0.6*dx` for
`n = 1,5`, `0.6*dy` for `n = 3,7`. -/
noncomputable def tiWeight (dx dy : ℝ) (n : Fin 8) : ℝ :=
  if n.val % 2 = 0 then 0.2 * dx + 0.2 * dy
  else if n.val = 1 ∨ n.val = 5 then 0.6 * dx
  else 0.6 * dy

/-- The per-direction slope `temp_slope[n]` of `Topindex`:
`(celev - neighbor_elev[n])` over the diagonal length, `dy`, or `dx`
according to the direction's parity class. -/
noncomputable def tiSlope (dx dy : ℝ) (celev : ℚ) (ne : Fin 8 → ℚ)
    (n : Fin 8) : ℝ :=
  if n.val % 2 = 0 then ((celev - ne n : ℚ) : ℝ) / lengthDiagonal dx dy
  else if n.val = 1 ∨ n.val = 5 then ((celev - ne n : ℚ) : ℝ) / dy
  else ((celev - ne n : ℚ) : ℝ) / dx

/-- `lower`: how many of the 8 neighbors are strictly lower and valid. -/
def lowerCount (nd celev : ℚ) (ne : Fin 8 → ℚ) : ℕ :=
  (Finset.univ.filter (tiLower nd celev ne)).card

/-- `contour_length[y][x]` as accumulated by the neighbor loop (before the
division by `lower`). -/
noncomputable def contourLenSum (dx dy : ℝ) (nd celev : ℚ)
    (ne : Fin 8 → ℚ) : ℝ :=
  ∑ n : Fin 8, if tiLower nd celev ne n then tiWeight dx dy n else 0

/-- `tanbeta[y][x]` as accumulated by the neighbor loop:
`temp_slope[n]` times the direction's contour weight. -/
noncomputable def tanbetaSum (dx dy : ℝ) (nd celev : ℚ)
    (ne : Fin 8 → ℚ) : ℝ :=
  ∑ n : Fin 8, if tiLower nd celev ne n then
    tiSlope dx dy celev ne n * tiWeight dx dy n else 0

/-- `tanbeta_pixel[y][x]` before the safety clamp: the floor when no lower
valid neighbor exists, otherwise the weighted average
`tanbeta[y][x]/contour_length[y][x]`. -/
noncomputable def tanbetaPixelPre (dx dy : ℝ) (nd celev : ℚ)
    (ne : Fin 8 → ℚ) : ℝ :=
  if lowerCount nd celev ne = 0 then minTanbeta dx dy
  else tanbetaSum dx dy nd celev ne / contourLenSum dx dy nd celev ne

/-- Final `contour_length[y][x]`: `2*dx+2*dy` when no lower valid neighbor
exists, otherwise the accumulated sum divided by `lower`. -/
noncomputable def contourLength (dx dy : ℝ) (nd celev : ℚ)
    (ne : Fin 8 → ℚ) : ℝ :=
  if lowerCount nd celev ne = 0 then 2 * dx + 2 * dy
  else contourLenSum dx dy nd celev ne / (lowerCount nd celev ne : ℝ)

/-- Final `tanbeta_pixel[y][x]` after the safety check
`if (tanbeta_pixel < floor) tanbeta_pixel = floor`. -/
noncomputable def tanbetaPixel (dx dy : ℝ) (nd celev : ℚ)
    (ne : Fin 8 → ℚ) : ℝ :=
  if tanbetaPixelPre dx dy nd celev ne < minTanbeta dx dy then minTanbeta dx dy
  else tanbetaPixelPre dx dy nd celev ne

/-- The topographic wetness index
`TI = flowacc / (contour_length * tanbeta_pixel)` of `Topindex`. -/
noncomputable def wetnessindex (flowacc dx dy : ℝ) (nd celev : ℚ)
    (ne : Fin 8 → ℚ) : ℝ :=
  flowacc / (contourLength dx dy nd celev ne * tanbetaPixel dx dy nd celev ne)

/-- The fixed tolerance `1e-5` of the profile consistency check of
`VICcalculation`. -/
def profileTol : ℚ := 1 / 100000

/-- The profile consistency check of `VICcalculation`:
`if (AREASUM[WetBins+LakeBins] - (waterVeg + wetlandVeg) > 1e-5) exit;` —
the run aborts, before printing the numeric profile, exactly when the final
cumulative area fraction exceeds the tracked `waterVeg + wetlandVeg` by more
than the tolerance. -/
def ProfileAborts (areasumFinal waterVeg wetlandVeg : ℚ) : Prop :=
  areasumFinal - (waterVeg + wetlandVeg) > profileTol

instance (a w wl : ℚ) : Decidable (ProfileAborts a w wl) := by
  unfold ProfileAborts; infer_instance

/-- `LakeBins` of `VICcalculation`: `4` when the water-cell fraction is
positive, `0` otherwise. -/
def LakeBins (waterVeg : ℚ) : ℕ := if 0 < waterVeg then 4 else 0

/-- `LakeArea = waterVeg*totalVeg*deltax*deltay/(1000.*1000.)` — the lake
surface area in square kilometers. -/
def LakeArea (waterVeg totalVeg dx dy : ℚ) : ℚ :=
  waterVeg * totalVeg * dx * dy / (1000 * 1000)

/-- `LakeDepth` of `VICcalculation`: the two-segment regional regression
`7.04 - 0.07*LakeArea` below `40.9375` km², the constant `4.17` at or above
it, and `0` when there is no water fraction. -/
def LakeDepth (waterVeg totalVeg dx dy : ℚ) : ℚ :=
  if 0 < waterVeg then
    if LakeArea waterVeg totalVeg dx dy < 40.9375 then
      7.04 - 0.07 * LakeArea waterVeg totalVeg dx dy
    else 4.17
  else 0

/-- `DEMSUM[i]` over the lake bins: `DEMSUM[0] = 0` and
`DEMSUM[i] = DEMSUM[i-1] + LakeDepth/LakeBins`. -/
def DEMSUMlake (LD : ℚ) (bins : ℕ) : ℕ → ℚ
  | 0 => 0
  | i + 1 => DEMSUMlake LD bins i + LD / bins

/-- `AREASUM[i] = waterVeg*sqrt(DEMSUM[i]/LakeDepth)` over the lake bins,
with `AREASUM[0] = 0`. -/
noncomputable def AREASUMlake (waterVeg LD : ℚ) (bins : ℕ) (i : ℕ) : ℝ :=
  if i = 0 then 0
  else (waterVeg : ℝ) * Real.sqrt ((DEMSUMlake LD bins i / LD : ℚ) : ℝ)

/-- `WetBins` of `VICcalculation`:
`WetBins = (int) ceil(wetlandVeg/0.091); if (WetBins < 5) WetBins = 5;`
when the wetland fraction is positive, `0` otherwise. -/
def WetBins (wetlandVeg : ℚ) : ℕ :=
  if 0 < wetlandVeg then
    (if Int.ceil (wetlandVeg / (91 / 1000 : ℚ)) < 5 then 5
     else Int.ceil (wetlandVeg / (91 / 1000 : ℚ))).toNat
  else 0

/-- The recomputed per-bin target `areacriteria = wetlandVeg/WetBins`. -/
def areacriteriaRe (wetlandVeg : ℚ) : ℚ :=
  wetlandVeg / (WetBins wetlandVeg : ℚ)

/-- The wetland binning loop of `VICcalculation`: each cell adds `1` to the
current bin's count, and the bin closes when
`WetlandBin[0][counter]/totalVeg >= areacriteria` or the cell list is
exhausted (`i == n-1`).  `wetlandBinCounts T crit m acc` runs the loop with
`m` cells remaining and `acc` cells already in the open bin, returning the
closed bins' cell counts in order. -/
def wetlandBinCounts (T crit : ℚ) : ℕ → ℕ → List ℕ
  | 0, _ => []
  | m + 1, acc =>
      if crit ≤ ((acc : ℚ) + 1) / T ∨ m = 0 then
        (acc + 1) :: wetlandBinCounts T crit m 0
      else wetlandBinCounts T crit m (acc + 1)

/-- C7: the precomputed neighbor index tables map every interior index to
`index ± 1` and clamp a step off either edge back to the same edge index
(`idown[1] = 1`, `iup[size_x] = size_x`, `jdown[1] = 1`,
`jup[size_y] = size_y`): edge cells are their own edge neighbors, with no
wraparound and no nodata substitution; every produced index stays inside
`[1, size]`. -/
theorem setupgridneighbors_clamped (sx sy i j : ℕ)
    (hi1 : 1 ≤ i) (hisx : i ≤ sx) (hj1 : 1 ≤ j) (hjsy : j ≤ sy) :
    ((1 < i → idown i = i - 1) ∧ (i < sx → iup sx i = i + 1) ∧
     (1 < j → jdown j = j - 1) ∧ (j < sy → jup sy j = j + 1)) ∧
    (idown 1 = 1 ∧ iup sx sx = sx ∧ jdown 1 = 1 ∧ jup sy sy = sy) ∧
    (1 ≤ idown i ∧ idown i ≤ sx ∧ 1 ≤ iup sx i ∧ iup sx i ≤ sx ∧
     1 ≤ jdown j ∧ jdown j ≤ sy ∧ 1 ≤ jup sy j ∧ jup sy j ≤ sy) := by
  unfold idown iup jdown jup
  refine ⟨⟨fun h => ?_, fun h => ?_, fun h => ?_, fun h => ?_⟩,
    ⟨by simp, by simp, by simp, by simp⟩, ?_⟩
  · rw [if_neg (by omega)]
  · rw [if_neg (by omega)]
  · rw [if_neg (by omega)]
  · rw [if_neg (by omega)]
  · split_ifs <;> omega

/-- Witness for `setupgridneighbors_clamped` at `size_x = 4`, `size_y = 3`,
`i = 2`, `j = 3`. -/
theorem setupgridneighbors_clamped_witness :
    (1 ≤ 2 ∧ 2 ≤ 4 ∧ 1 ≤ 3 ∧ 3 ≤ 3) ∧
    (((1 < 2 → idown 2 = 2 - 1) ∧ (2 < 4 → iup 4 2 = 2 + 1) ∧
      (1 < 3 → jdown 3 = 3 - 1) ∧ (3 < 3 → jup 3 3 = 3 + 1)) ∧
     (idown 1 = 1 ∧ iup 4 4 = 4 ∧ jdown 1 = 1 ∧ jup 3 3 = 3) ∧
     (1 ≤ idown 2 ∧ idown 2 ≤ 4 ∧ 1 ≤ iup 4 2 ∧ iup 4 2 ≤ 4 ∧
      1 ≤ jdown 3 ∧ jdown 3 ≤ 3 ∧ 1 ≤ jup 3 3 ∧ jup 3 3 ≤ 3)) :=
  ⟨⟨by decide, by decide, by decide, by decide⟩,
   setupgridneighbors_clamped 4 3 2 3 (by decide) (by decide) (by decide)
     (by decide)⟩

/-- The running minimum of `fillinpitsandflats` never exceeds its starting
value. -/
theorem foldlMin_le_init (g : ℕ × ℕ → ℚ) (nd : ℚ) :
    ∀ (L : List (ℕ × ℕ)) (a : ℚ),
      L.foldl (fun m n => if g n < m ∧ g n ≠ nd then g n else m) a ≤ a := by
  intro L
  induction L with
  | nil => intro a; simp
  | cons x L ih =>
      intro a
      simp only [List.foldl_cons]
      refine le_trans (ih _) ?_
      split_ifs with h
      · exact le_of_lt h.1
      · exact le_rfl

/-- The running minimum of `fillinpitsandflats` is at most the value of any
non-nodata cell of the list. -/
theorem foldlMin_le_mem (g : ℕ × ℕ → ℚ) (nd : ℚ) :
    ∀ (L : List (ℕ × ℕ)) (a : ℚ) (n : ℕ × ℕ), n ∈ L → g n ≠ nd →
      L.foldl (fun m n => if g n < m ∧ g n ≠ nd then g n else m) a ≤ g n := by
  intro L
  induction L with
  | nil => intro a n hn; exact absurd hn (List.not_mem_nil n)
  | cons x L ih =>
      intro a n hn hnd
      rcases List.mem_cons.mp hn with h | h
      · subst h
        simp only [List.foldl_cons]
        refine le_trans (foldlMin_le_init g nd L _) ?_
        split_ifs with hx
        · exact le_rfl
        · rcases not_and_or.mp hx with hx | hx
          · exact le_of_not_lt hx
          · exact absurd hnd hx
      · exact ih _ n h hnd

/-- The running minimum of `fillinpitsandflats` is the starting value or the
value of some non-nodata cell of the list. -/
theorem foldlMin_eq_init_or_mem (g : ℕ × ℕ → ℚ) (nd : ℚ) :
    ∀ (L : List (ℕ × ℕ)) (a : ℚ),
      L.foldl (fun m n => if g n < m ∧ g n ≠ nd then g n else m) a = a ∨
      ∃ n ∈ L, g n ≠ nd ∧
        L.foldl (fun m n => if g n < m ∧ g n ≠ nd then g n else m) a = g n := by
  intro L
  induction L with
  | nil => intro a; exact Or.inl rfl
  | cons x L ih =>
      intro a
      simp only [List.foldl_cons]
      rcases ih (if g x < a ∧ g x ≠ nd then g x else a) with h | ⟨n, hn, hnd, h⟩
      · by_cases hx : g x < a ∧ g x ≠ nd
        · exact Or.inr ⟨x, List.mem_cons_self x L, hx.2, by rw [h, if_pos hx]⟩
        · exact Or.inl (by rw [h, if_neg hx])
      · exact Or.inr ⟨n, List.mem_cons_of_mem x hn, hnd, h⟩

/-- The pit minimum never exceeds the center's own elevation. -/
theorem pitMin_le_self (sx sy : ℕ) (nd : ℚ) (g : ℕ × ℕ → ℚ) (c : ℕ × ℕ) :
    pitMin sx sy nd g c ≤ g c :=
  foldlMin_le_init g nd _ _

/-- The pit minimum never exceeds a valid neighbor's elevation. -/
theorem pitMin_le_nbr (sx sy : ℕ) (nd : ℚ) (g : ℕ × ℕ → ℚ) (c n : ℕ × ℕ)
    (hn : n ∈ nbrList sx sy c) (hnd : g n ≠ nd) :
    pitMin sx sy nd g c ≤ g n :=
  foldlMin_le_mem g nd _ _ n hn hnd

/-- The pit minimum is the center's value or a valid neighbor's value. -/
theorem pitMin_eq_self_or_nbr (sx sy : ℕ) (nd : ℚ) (g : ℕ × ℕ → ℚ)
    (c : ℕ × ℕ) :
    pitMin sx sy nd g c = g c ∨
    ∃ n ∈ nbrList sx sy c, g n ≠ nd ∧ pitMin sx sy nd g c = g n :=
  foldlMin_eq_init_or_mem g nd _ _

/-- A border cell is not interior. -/
theorem onBorder_not_interior (sx sy : ℕ) (c : ℕ × ℕ)
    (h : onBorder sx sy c) : ¬ interior sx sy c := by
  rcases h with ⟨-, h⟩
  rintro ⟨h1, h2, h3, h4⟩
  rcases h with h | h | h | h <;> omega

/-- A raise never lowers any cell. -/
theorem fillStep_mono (sx sy : ℕ) (nd : ℚ) (g g' : ℕ × ℕ → ℚ)
    (h : FillStep sx sy nd g g') (c : ℕ × ℕ) : g c ≤ g' c := by
  obtain ⟨d, hr, rfl⟩ := h
  by_cases hc : c = d
  · subst hc
    rw [Function.update_same]
    have : (0 : ℚ) < fillincrement := by norm_num [fillincrement]
    linarith [hr.1]
  · rw [Function.update_noteq hc]

/-- A raise only modifies an interior cell. -/
theorem fillStep_frame (sx sy : ℕ) (nd : ℚ) (g g' : ℕ × ℕ → ℚ)
    (h : FillStep sx sy nd g g') (c : ℕ × ℕ)
    (hc : ¬ interior sx sy c) : g' c = g c := by
  obtain ⟨d, hr, rfl⟩ := h
  have hcd : c ≠ d := fun h => hc (h ▸ hr.2.2)
  rw [Function.update_noteq hcd]

/-- C2: after the sink/flat elimination pass (a maximal sequence of raises:
a reachable state in which no cell satisfies the raise condition), every
interior non-nodata cell is strictly above some valid neighbor — that is,
strictly above the minimum of its valid neighbors' elevations — every border
cell still carries its input value, and no cell is ever below its pre-fill
value. -/
theorem fillinpitsandflats_c2 (sx sy : ℕ) (nd : ℚ) (g0 g : ℕ × ℕ → ℚ)
    (hreach : FillReach sx sy nd g0 g) :
    (∀ c, g0 c ≤ g c) ∧
    (∀ c, onBorder sx sy c → g c = g0 c) ∧
    ((∀ c, ¬ Raisable sx sy nd g c) → ∀ c, interior sx sy c → g c ≠ nd →
      ∃ n ∈ nbrList sx sy c, g n ≠ nd ∧ g n < g c) := by
  refine ⟨?_, ?_, ?_⟩
  · intro c
    induction hreach using Relation.ReflTransGen.head_induction_on with
    | refl => exact le_rfl
    | head hstep _ ih => exact le_trans (fillStep_mono _ _ _ _ _ hstep c) ih
  · intro c hc
    induction hreach using Relation.ReflTransGen.head_induction_on with
    | refl => rfl
    | head hstep _ ih =>
        rw [ih,
          fillStep_frame _ _ _ _ _ hstep c (onBorder_not_interior _ _ _ hc)]
  · intro hnf c hint hnd
    have h1 : ¬ g c ≤ pitMin sx sy nd g c := fun hle => hnf c ⟨hle, hnd, hint⟩
    push_neg at h1
    rcases pitMin_eq_self_or_nbr sx sy nd g c with h | ⟨n, hn, hndn, heq⟩
    · rw [h] at h1; exact absurd h1 (lt_irrefl _)
    · exact ⟨n, hn, hndn, heq ▸ h1⟩

/-- C8 counterexample: on the finite, bounded-elevation 3 × 3 grid whose
center is the only non-nodata cell, the recursion of `fillinpitsandflats`
admits an infinite raise chain — the center has no valid neighbor, so its
neighborhood minimum is itself and the raise condition holds again after
every raise. -/
theorem fillinpitsandflats_c8_counterexample :
    FillDiverges 3 3 (-9999) isolatedCenterGrid := by
  refine ⟨isolatedCenterChain, ?_, ?_⟩
  · funext c
    simp [isolatedCenterChain, isolatedCenterGrid]
  · intro n
    have hval : isolatedCenterChain n (2, 2) = 5 + n * fillincrement := by
      simp [isolatedCenterChain]
    have hstep : ∀ d : ℕ × ℕ, d ≠ (2, 2) → ∀ m : ℚ,
        (if isolatedCenterChain n d < m ∧ isolatedCenterChain n d ≠ -9999
          then isolatedCenterChain n d else m) = m := by
      intro d hd m
      rw [if_neg]
      simp [isolatedCenterChain, hd]
    have hpm : pitMin 3 3 (-9999) (isolatedCenterChain n) (2, 2) =
        5 + n * fillincrement := by
      show (nbrList 3 3 (2, 2)).foldl _ _ = _
      rw [show nbrList 3 3 (2, 2) =
        [(3, 2), (1, 2), (2, 3), (2, 1), (3, 3), (1, 3), (1, 1), (3, 1)] from
        rfl]
      simp only [List.foldl_cons, List.foldl_nil]
      rw [hstep (3, 1) (by decide), hstep (1, 1) (by decide),
        hstep (1, 3) (by decide), hstep (3, 3) (by decide),
        hstep (2, 1) (by decide), hstep (2, 3) (by decide),
        hstep (1, 2) (by decide), hstep (3, 2) (by decide), hval]
    refine ⟨(2, 2), ⟨?_, ?_, by decide⟩, ?_⟩
    · rw [hval, hpm]
    · rw [hval]
      have hnn : (0 : ℚ) ≤ (n : ℚ) * fillincrement :=
        mul_nonneg (by positivity) (by norm_num [fillincrement])
      intro h
      linarith [h.symm.le, h.le]
    · funext c
      by_cases hc : c = (2, 2)
      · subst hc
        rw [Function.update_same, hpm]
        simp only [isolatedCenterChain, if_pos rfl]
        push_cast
        ring
      · rw [Function.update_noteq hc]
        simp [isolatedCenterChain, hc]

/-- An interior cell is a grid cell. -/
theorem interior_inGrid (sx sy : ℕ) (c : ℕ × ℕ) (h : interior sx sy c) :
    inGrid sx sy c := by
  obtain ⟨h1, h2, h3, h4⟩ := h
  exact ⟨by omega, by omega, by omega, by omega⟩

/-- Clamped neighbors of a grid cell are grid cells. -/
theorem nbrList_inGrid (sx sy : ℕ) (c n : ℕ × ℕ) (hc : inGrid sx sy c)
    (hn : n ∈ nbrList sx sy c) : inGrid sx sy n := by
  obtain ⟨h1, h2, h3, h4⟩ := hc
  simp only [nbrList, List.mem_cons, List.not_mem_nil, or_false] at hn
  rcases hn with rfl | rfl | rfl | rfl | rfl | rfl | rfl | rfl <;>
    (refine ⟨?_, ?_, ?_, ?_⟩ <;>
      (simp only [iup, idown, jup, jdown]; first | omega | (split_ifs <;> omega)))

/-- An `AnchoredK` derivation starts from a cell satisfying `V`. -/
theorem anchoredK_valid (sx sy : ℕ) (V : ℕ × ℕ → Prop) (k : ℕ) (c : ℕ × ℕ)
    (h : AnchoredK sx sy V k c) : V c := by
  cases h with
  | border _ hv _ => exact hv
  | step _ _ _ hv _ _ => exact hv

/-- One raise preserves the bookkeeping used to bound the fill: non-interior
cells and the nodata pattern are untouched, valid values stay nonnegative,
and every cell anchored to the border within `k` steps stays below
`M + k * fillincrement`. -/
theorem fillStep_inv (sx sy : ℕ) (nd : ℚ) (g0 : ℕ × ℕ → ℚ) (M : ℚ)
    (hnd : nd < 0) (g g' : ℕ × ℕ → ℚ) (hstep : FillStep sx sy nd g g')
    (h1 : ∀ c, ¬ interior sx sy c → g c = g0 c)
    (h2 : ∀ c, interior sx sy c → g0 c = nd → g c = nd)
    (h3 : ∀ c, interior sx sy c → g0 c ≠ nd → g c ≠ nd)
    (h4 : ∀ c, inGrid sx sy c → g c ≠ nd → 0 ≤ g c)
    (h5 : ∀ c k, AnchoredK sx sy (ValidCell sx sy nd g0) k c →
      g c ≤ M + k * fillincrement) :
    (∀ c, ¬ interior sx sy c → g' c = g0 c) ∧
    (∀ c, interior sx sy c → g0 c = nd → g' c = nd) ∧
    (∀ c, interior sx sy c → g0 c ≠ nd → g' c ≠ nd) ∧
    (∀ c, inGrid sx sy c → g' c ≠ nd → 0 ≤ g' c) ∧
    (∀ c k, AnchoredK sx sy (ValidCell sx sy nd g0) k c →
      g' c ≤ M + k * fillincrement) := by
  obtain ⟨d, hr, rfl⟩ := hstep
  have hdint : interior sx sy d := hr.2.2
  have hdin : inGrid sx sy d := interior_inGrid sx sy d hdint
  have hinc : (0 : ℚ) < fillincrement := by norm_num [fillincrement]
  have hpm0 : 0 ≤ pitMin sx sy nd g d := by
    rcases pitMin_eq_self_or_nbr sx sy nd g d with h | ⟨m, hm, hmnd, heq⟩
    · rw [h]; exact h4 d hdin hr.2.1
    · rw [heq]; exact h4 m (nbrList_inGrid sx sy d m hdin hm) hmnd
  refine ⟨?_, ?_, ?_, ?_, ?_⟩
  · intro c hc
    have hcd : c ≠ d := by
      intro h
      apply hc
      rw [h]
      exact hdint
    rw [Function.update_noteq hcd]
    exact h1 c hc
  · intro c hc hc0
    have hcd : c ≠ d := by
      intro h
      apply hr.2.1
      rw [← h]
      exact h2 c hc hc0
    rw [Function.update_noteq hcd]
    exact h2 c hc hc0
  · intro c hc hc0
    by_cases hcd : c = d
    · rw [hcd, Function.update_same]
      intro h
      linarith [h.le, h.ge]
    · rw [Function.update_noteq hcd]
      exact h3 c hc hc0
  · intro c hc hcnd
    by_cases hcd : c = d
    · rw [hcd, Function.update_same]
      linarith
    · rw [Function.update_noteq hcd] at hcnd ⊢
      exact h4 c hc hcnd
  · intro c k hk
    by_cases hcd : c = d
    · subst hcd
      rw [Function.update_same]
      cases hk with
      | border _ hv hb => exact absurd hdint (onBorder_not_interior sx sy c hb)
      | step k' _ m hv hm hk' =>
          have hmv : ValidCell sx sy nd g0 m :=
            anchoredK_valid sx sy _ k' m hk'
          have hmnd : g m ≠ nd := by
            by_cases hmi : interior sx sy m
            · exact h3 m hmi hmv.2
            · rw [h1 m hmi]; exact hmv.2
          have hle : pitMin sx sy nd g c ≤ g m :=
            pitMin_le_nbr sx sy nd g c m hm hmnd
          have hbd : g m ≤ M + k' * fillincrement := h5 m k' hk'
          have hca : ((k' + 1 : ℕ) : ℚ) * fillincrement =
              k' * fillincrement + fillincrement := by push_cast; ring
          rw [hca]
          linarith
    · rw [Function.update_noteq hcd]
      exact h5 c k hk

/-- C8, amended: the sink/flat recursion raises a cell by at least the fixed
increment `0.01` each time, but elevations are bounded — and hence the
recursion terminates — only when every non-nodata cell's 8-connected
component of non-nodata cells touches the grid border (an interior
non-nodata cell with no valid connection to the border, for example one
whose 8 neighbors are all nodata, is raised forever).  Under that
anchoring hypothesis, with nodata negative and valid input elevations
nonnegative and bounded by `M`, no infinite raise chain exists. -/
theorem fillinpitsandflats_c8_amended (sx sy : ℕ) (nd : ℚ)
    (g0 : ℕ × ℕ → ℚ) (M : ℚ)
    (hnd : nd < 0)
    (h0 : ∀ c, inGrid sx sy c → g0 c ≠ nd → 0 ≤ g0 c)
    (hM : ∀ c, inGrid sx sy c → g0 c ≠ nd → g0 c ≤ M)
    (hanch : ∀ c, inGrid sx sy c → g0 c ≠ nd →
      ∃ k, AnchoredK sx sy (ValidCell sx sy nd g0) k c) :
    ¬ FillDiverges sx sy nd g0 := by
  rintro ⟨f, hf0, hfs⟩
  have hinc : (0 : ℚ) < fillincrement := by norm_num [fillincrement]
  have hinv : ∀ n, (∀ c, ¬ interior sx sy c → f n c = g0 c) ∧
      (∀ c, interior sx sy c → g0 c = nd → f n c = nd) ∧
      (∀ c, interior sx sy c → g0 c ≠ nd → f n c ≠ nd) ∧
      (∀ c, inGrid sx sy c → f n c ≠ nd → 0 ≤ f n c) ∧
      (∀ c k, AnchoredK sx sy (ValidCell sx sy nd g0) k c →
        f n c ≤ M + k * fillincrement) := by
    intro n
    induction n with
    | zero =>
        rw [hf0]
        refine ⟨fun c _ => rfl, fun c _ h => h, fun c _ h => h, h0, ?_⟩
        intro c k hk
        have hv := anchoredK_valid sx sy _ k c hk
        have : (0 : ℚ) ≤ (k : ℚ) * fillincrement :=
          mul_nonneg (by positivity) (le_of_lt hinc)
        have := hM c hv.1 hv.2
        linarith
    | succ n ih =>
        exact fillStep_inv sx sy nd g0 M hnd (f n) (f (n + 1)) (hfs n)
          ih.1 ih.2.1 ih.2.2.1 ih.2.2.2.1 ih.2.2.2.2
  have hanch' : ∀ c : ℕ × ℕ, ∃ k, inGrid sx sy c → g0 c ≠ nd →
      AnchoredK sx sy (ValidCell sx sy nd g0) k c := by
    intro c
    by_cases hcg : inGrid sx sy c
    · by_cases hcv : g0 c ≠ nd
      · obtain ⟨k, hk⟩ := hanch c hcg hcv
        exact ⟨k, fun _ _ => hk⟩
      · exact ⟨0, fun _ h => absurd h hcv⟩
    · exact ⟨0, fun h => absurd h hcg⟩
  choose kf hkf using hanch'
  have hub : ∀ n, (∑ c ∈ gridFinset sx sy, f n c) ≤
      ∑ c ∈ gridFinset sx sy, max (M + kf c * fillincrement) (g0 c) := by
    intro n
    refine Finset.sum_le_sum ?_
    intro c hc
    have hcg : inGrid sx sy c := by
      simpa [gridFinset, inGrid, Finset.mem_product, Finset.mem_Icc,
        and_assoc] using hc
    by_cases hv : g0 c ≠ nd
    · exact le_trans ((hinv n).2.2.2.2 c (kf c) (hkf c hcg hv))
        (le_max_left _ _)
    · push_neg at hv
      have hfc : f n c = g0 c := by
        by_cases hi : interior sx sy c
        · rw [(hinv n).2.1 c hi hv, hv]
        · exact (hinv n).1 c hi
      rw [hfc]
      exact le_max_right _ _
  have hstep_sum : ∀ n, (∑ c ∈ gridFinset sx sy, f n c) + fillincrement ≤
      ∑ c ∈ gridFinset sx sy, f (n + 1) c := by
    intro n
    obtain ⟨d, hr, heq⟩ := hfs n
    have hdmem : d ∈ gridFinset sx sy := by
      have := interior_inGrid sx sy d hr.2.2
      simp [gridFinset, Finset.mem_product, Finset.mem_Icc]
      exact ⟨⟨this.1, this.2.1⟩, this.2.2.1, this.2.2.2⟩
    have hS1 : (∑ c ∈ gridFinset sx sy, f (n + 1) c) =
        (pitMin sx sy nd (f n) d + fillincrement) +
          ∑ c ∈ (gridFinset sx sy).erase d, f n c := by
      rw [heq]
      rw [← Finset.add_sum_erase _ _ hdmem]
      rw [Function.update_same]
      congr 1
      refine Finset.sum_congr rfl ?_
      intro c hc
      exact Function.update_noteq (Finset.ne_of_mem_erase hc) _ _
    have hS0 : (∑ c ∈ gridFinset sx sy, f n c) =
        f n d + ∑ c ∈ (gridFinset sx sy).erase d, f n c :=
      (Finset.add_sum_erase _ _ hdmem).symm
    rw [hS0, hS1]
    have := hr.1
    linarith
  have hlin : ∀ n, (∑ c ∈ gridFinset sx sy, f 0 c) + n * fillincrement ≤
      ∑ c ∈ gridFinset sx sy, f n c := by
    intro n
    induction n with
    | zero => simp
    | succ n ih =>
        have := hstep_sum n
        have hcast : ((n + 1 : ℕ) : ℚ) * fillincrement =
            n * fillincrement + fillincrement := by push_cast; ring
        rw [hcast]
        linarith
  set S0 := ∑ c ∈ gridFinset sx sy, f 0 c with hS0def
  set B := ∑ c ∈ gridFinset sx sy, max (M + kf c * fillincrement) (g0 c)
    with hBdef
  obtain ⟨n, hn⟩ := exists_nat_gt ((B - S0) / fillincrement)
  have h1 := hlin n
  have h2 := hub n
  have h3 : B - S0 < n * fillincrement := by
    rw [div_lt_iff₀ hinc] at hn
    linarith
  linarith

/-- Witness for `fillinpitsandflats_c2`: one raise carries `c2PitGrid` to
`c2FilledGrid`, and the theorem's conclusions hold there. -/
theorem fillinpitsandflats_c2_witness :
    FillReach 3 3 (-9999) c2PitGrid c2FilledGrid ∧
    ((∀ c, c2PitGrid c ≤ c2FilledGrid c) ∧
     (∀ c, onBorder 3 3 c → c2FilledGrid c = c2PitGrid c) ∧
     ((∀ c, ¬ Raisable 3 3 (-9999) c2FilledGrid c) →
       ∀ c, interior 3 3 c → c2FilledGrid c ≠ (-9999 : ℚ) →
         ∃ n ∈ nbrList 3 3 c,
           c2FilledGrid n ≠ (-9999 : ℚ) ∧ c2FilledGrid n < c2FilledGrid c)) := by
  have hr : Raisable 3 3 (-9999) c2PitGrid (2, 2) := by decide
  have hreach : FillReach 3 3 (-9999) c2PitGrid c2FilledGrid :=
    Relation.ReflTransGen.single ⟨(2, 2), hr, rfl⟩
  exact ⟨hreach, fillinpitsandflats_c2 3 3 (-9999) _ _ hreach⟩

/-- Witness for `fillinpitsandflats_c8_amended` on the 3 × 3 all-valid grid
with a central pit: every hypothesis holds concretely and the fill cannot
diverge from it. -/
theorem fillinpitsandflats_c8_amended_witness :
    ((-9999 : ℚ) < 0) ∧
    (∀ c, inGrid 3 3 c → anchoredWitnessGrid c ≠ (-9999 : ℚ) →
      0 ≤ anchoredWitnessGrid c) ∧
    (∀ c, inGrid 3 3 c → anchoredWitnessGrid c ≠ (-9999 : ℚ) →
      anchoredWitnessGrid c ≤ 1) ∧
    (∀ c, inGrid 3 3 c → anchoredWitnessGrid c ≠ (-9999 : ℚ) →
      ∃ k, AnchoredK 3 3 (ValidCell 3 3 (-9999) anchoredWitnessGrid) k c) ∧
    ¬ FillDiverges 3 3 (-9999) anchoredWitnessGrid := by
  have hnd : (-9999 : ℚ) < 0 := by norm_num
  have h0 : ∀ c, inGrid 3 3 c → anchoredWitnessGrid c ≠ (-9999 : ℚ) →
      0 ≤ anchoredWitnessGrid c := by
    intro c _ _
    unfold anchoredWitnessGrid
    split_ifs <;> norm_num
  have hM : ∀ c, inGrid 3 3 c → anchoredWitnessGrid c ≠ (-9999 : ℚ) →
      anchoredWitnessGrid c ≤ 1 := by
    intro c _ _
    unfold anchoredWitnessGrid
    split_ifs <;> norm_num
  have hanch : ∀ c, inGrid 3 3 c → anchoredWitnessGrid c ≠ (-9999 : ℚ) →
      ∃ k, AnchoredK 3 3 (ValidCell 3 3 (-9999) anchoredWitnessGrid) k c := by
    rintro ⟨i, j⟩ ⟨a1, a2, a3, a4⟩ -
    simp only at a1 a2 a3 a4
    interval_cases i <;> interval_cases j <;>
      first
      | exact ⟨0, AnchoredK.border _ (by decide) (by decide)⟩
      | exact ⟨1, AnchoredK.step 0 (2, 2) (2, 1) (by decide) (by decide)
          (AnchoredK.border (2, 1) (by decide) (by decide))⟩
  exact ⟨hnd, h0, hM, hanch,
    fillinpitsandflats_c8_amended 3 3 (-9999) anchoredWitnessGrid 1 hnd h0 hM
      hanch⟩

/-- The source's diagonal factor literal is positive. -/
theorem oneoversqrt2_pos : (0 : ℝ) < oneoversqrt2 := by
  norm_num [oneoversqrt2]

/-- Toward a strictly lower valid target, the router's `pow` summand is
strictly positive. -/
theorem mfdWeight_pos (sx sy : ℕ) (nd : ℚ) (topo : ℕ × ℕ → ℚ) (c : ℕ × ℕ)
    (k : Fin 8) (h : mfdLower sx sy nd topo c k) :
    0 < mfdWeight sx sy topo c k := by
  have hd : (0 : ℝ) < ((topo c - topo (mfdTarget sx sy c k) : ℚ) : ℝ) := by
    exact_mod_cast sub_pos.mpr h.1
  unfold mfdWeight
  split_ifs
  · exact Real.rpow_pos_of_pos hd _
  · exact Real.rpow_pos_of_pos (mul_pos hd oneoversqrt2_pos) _

/-- When some direction points at a strictly lower valid target, `tot` is
strictly positive (the denominator of the flow fractions is nonzero). -/
theorem mfdTot_pos (sx sy : ℕ) (nd : ℚ) (topo : ℕ × ℕ → ℚ) (c : ℕ × ℕ)
    (k0 : Fin 8) (h : mfdLower sx sy nd topo c k0) :
    0 < mfdTot sx sy nd topo c := by
  unfold mfdTot
  refine Finset.sum_pos' (fun k _ => ?_) ⟨k0, Finset.mem_univ _, ?_⟩
  · split_ifs with hk
    · exact le_of_lt (mfdWeight_pos sx sy nd topo c k hk)
    · exact le_rfl
  · rw [if_pos h]
    exact mfdWeight_pos sx sy nd topo c k0 h

/-- At a valid cell, the fraction toward a strictly lower valid target is
strictly positive. -/
theorem mfdFrac_pos (sx sy : ℕ) (nd : ℚ) (topo : ℕ × ℕ → ℚ) (c : ℕ × ℕ)
    (k : Fin 8) (hnd : topo c ≠ nd) (h : mfdLower sx sy nd topo c k) :
    0 < mfdFrac sx sy nd topo c k := by
  unfold mfdFrac
  rw [if_neg hnd, if_pos h]
  exact div_pos (mfdWeight_pos sx sy nd topo c k h)
    (mfdTot_pos sx sy nd topo c k h)

/-- No cell sends a nonzero fraction to itself: a direction whose clamped
target is the cell itself fails the strictly-lower guard. -/
theorem mfdFrac_self_zero (sx sy : ℕ) (nd : ℚ) (topo : ℕ × ℕ → ℚ)
    (c : ℕ × ℕ) (k : Fin 8) (h : mfdTarget sx sy c k = c) :
    mfdFrac sx sy nd topo c k = 0 := by
  unfold mfdFrac
  split_ifs with h1 h2
  · rfl
  · have h3 := h2.1
    rw [h] at h3
    exact absurd h3 (lt_irrefl _)
  · rfl

/-- A sink cell (nodata, or no strictly lower valid target) has all eight
fractions zero. -/
theorem mfdFrac_sink_zero (sx sy : ℕ) (nd : ℚ) (topo : ℕ × ℕ → ℚ)
    (c : ℕ × ℕ) (hs : mfdSink sx sy nd topo c) (k : Fin 8) :
    mfdFrac sx sy nd topo c k = 0 := by
  unfold mfdFrac
  rcases hs with hs | hs
  · rw [if_pos hs]
  · split_ifs with h1 h2
    · rfl
    · exact absurd h2 (hs k)
    · rfl

/-- At a valid non-sink cell the eight fractions are the `pow` summands
normalized by `tot`, so they sum to one. -/
theorem mfdFrac_sum_one (sx sy : ℕ) (nd : ℚ) (topo : ℕ × ℕ → ℚ)
    (c : ℕ × ℕ) (hnd : topo c ≠ nd) (k0 : Fin 8)
    (h : mfdLower sx sy nd topo c k0) :
    ∑ k : Fin 8, mfdFrac sx sy nd topo c k = 1 := by
  have ht : mfdTot sx sy nd topo c ≠ 0 :=
    ne_of_gt (mfdTot_pos sx sy nd topo c k0 h)
  unfold mfdFrac
  simp only [if_neg hnd]
  have hdiv : ∀ k : Fin 8,
      (if mfdLower sx sy nd topo c k then
        mfdWeight sx sy topo c k / mfdTot sx sy nd topo c else 0) =
      (if mfdLower sx sy nd topo c k then mfdWeight sx sy topo c k else 0) /
        mfdTot sx sy nd topo c := by
    intro k
    split_ifs
    · rfl
    · rw [zero_div]
  simp only [hdiv]
  rw [← Finset.sum_div]
  exact div_self ht

/-- Clamped router targets of a grid cell are grid cells. -/
theorem mfdTarget_inGrid (sx sy : ℕ) (c : ℕ × ℕ) (k : Fin 8)
    (hc : inGrid sx sy c) : inGrid sx sy (mfdTarget sx sy c k) := by
  obtain ⟨h1, h2, h3, h4⟩ := hc
  fin_cases k <;>
    (refine ⟨?_, ?_, ?_, ?_⟩ <;>
      (simp only [mfdTarget, iup, idown, jup, jdown]
       first | omega | (split_ifs <;> omega)))

/-- Pointwise effect of the eight sequential redistribution updates: each
cell receives the source cell's flow times the fractions of the directions
aimed at it, and the source cell's own flow is unchanged while they run. -/
theorem mfdRoute_foldl_apply (sx sy : ℕ) (nd : ℚ) (topo : ℕ × ℕ → ℚ)
    (c : ℕ × ℕ) :
    ∀ (ks : List (Fin 8)) (fl : ℕ × ℕ → ℝ) (d : ℕ × ℕ),
      (ks.foldl (fun f k => Function.update f (mfdTarget sx sy c k)
        (f (mfdTarget sx sy c k) + f c * mfdFrac sx sy nd topo c k)) fl) d =
      fl d + fl c *
        ((ks.map (fun k => if mfdTarget sx sy c k = d
          then mfdFrac sx sy nd topo c k else 0)).sum) := by
  intro ks
  induction ks with
  | nil => intro fl d; simp
  | cons k ks ih =>
      intro fl d
      simp only [List.foldl_cons, List.map_cons, List.sum_cons]
      rw [ih]
      have hfc : Function.update fl (mfdTarget sx sy c k)
          (fl (mfdTarget sx sy c k) + fl c * mfdFrac sx sy nd topo c k) c
          = fl c := by
        by_cases h : mfdTarget sx sy c k = c
        · rw [h, Function.update_same,
            mfdFrac_self_zero sx sy nd topo c k h]
          ring
        · exact Function.update_noteq (fun hc => h hc.symm) _ _
      rw [hfc, Function.update_apply]
      by_cases h : d = mfdTarget sx sy c k
      · subst h
        rw [if_pos rfl, if_pos rfl]
        ring
      · rw [if_neg h, if_neg (fun hh => h hh.symm)]
        ring

/-- Summing the routed flow over any set of cells: the set's previous total
plus the source cell's flow times the fractions aimed into the set. -/
theorem mfdRoute_sum (sx sy : ℕ) (nd : ℚ) (topo : ℕ × ℕ → ℚ) (c : ℕ × ℕ)
    (fl : ℕ × ℕ → ℝ) (S : Finset (ℕ × ℕ)) :
    (∑ d ∈ S, mfdRoute sx sy nd topo c fl d) =
      (∑ d ∈ S, fl d) + fl c * (∑ k : Fin 8,
        if mfdTarget sx sy c k ∈ S then mfdFrac sx sy nd topo c k else 0) := by
  unfold mfdRoute
  simp only [mfdRoute_foldl_apply sx sy nd topo c (List.finRange 8) fl]
  rw [Finset.sum_add_distrib]
  congr 1
  rw [← Finset.mul_sum]
  congr 1
  have hconv : ∀ d : ℕ × ℕ,
      ((List.finRange 8).map (fun k => if mfdTarget sx sy c k = d
        then mfdFrac sx sy nd topo c k else 0)).sum =
      ∑ k : Fin 8, if mfdTarget sx sy c k = d
        then mfdFrac sx sy nd topo c k else 0 := by
    intro d
    rw [Fin.sum_univ_def]
  simp only [hconv]
  rw [Finset.sum_comm]
  refine Finset.sum_congr rfl (fun k _ => ?_)
  exact Finset.sum_ite_eq S (mfdTarget sx sy c k)
    (fun _ => mfdFrac sx sy nd topo c k)

/-- Membership in the grid Finset is the `inGrid` predicate. -/
theorem mem_gridFinset (sx sy : ℕ) (c : ℕ × ℕ) :
    c ∈ gridFinset sx sy ↔ inGrid sx sy c := by
  unfold gridFinset inGrid
  rw [Finset.mem_product, Finset.mem_Icc, Finset.mem_Icc]
  tauto

/-- Conservation invariant of the routing sweep: processing a descending
suffix of distinct grid cells moves every non-sink member's flow into sinks,
so the total held by sinks afterwards equals the total previously held by
sinks and unprocessed cells together. -/
theorem mfdSweep_sink_sum (sx sy : ℕ) (nd : ℚ) (topo : ℕ × ℕ → ℚ) :
    ∀ (rest : List (ℕ × ℕ)) (fl : ℕ × ℕ → ℝ),
      (∀ c ∈ rest, c ∈ gridFinset sx sy) →
      rest.Nodup →
      rest.Pairwise (fun a b => topo b ≤ topo a) →
      (∀ d ∈ gridFinset sx sy, d ∉ rest →
        mfdSink sx sy nd topo d ∨ ∀ e ∈ rest, topo e ≤ topo d) →
      (∑ d ∈ (gridFinset sx sy).filter (fun d => mfdSink sx sy nd topo d),
        mfdSweep sx sy nd topo rest fl d) =
      ∑ d ∈ (gridFinset sx sy).filter
          (fun d => mfdSink sx sy nd topo d ∨ d ∈ rest), fl d := by
  intro rest
  induction rest with
  | nil =>
      intro fl _ _ _ _
      unfold mfdSweep
      simp
  | cons c t ih =>
      intro fl hsub hnodup hpair hout
      have hsub' : ∀ e ∈ t, e ∈ gridFinset sx sy :=
        fun e he => hsub e (List.mem_cons_of_mem c he)
      have hnodup' : t.Nodup := hnodup.of_cons
      have hpair' : t.Pairwise (fun a b => topo b ≤ topo a) := hpair.of_cons
      have hcg : c ∈ gridFinset sx sy := hsub c (List.mem_cons_self c t)
      have hcnott : c ∉ t := (List.nodup_cons.mp hnodup).1
      have hctop : ∀ e ∈ t, topo e ≤ topo c := (List.pairwise_cons.mp hpair).1
      have hout' : ∀ d ∈ gridFinset sx sy, d ∉ t →
          mfdSink sx sy nd topo d ∨ ∀ e ∈ t, topo e ≤ topo d := by
        intro d hd hdt
        by_cases hdc : d = c
        · subst hdc
          exact Or.inr hctop
        · have hdct : d ∉ c :: t := by
            simp only [List.mem_cons]
            push_neg
            exact ⟨hdc, hdt⟩
          rcases hout d hd hdct with hs | hs
          · exact Or.inl hs
          · exact Or.inr (fun e he => hs e (List.mem_cons_of_mem c he))
      have hsweep : mfdSweep sx sy nd topo (c :: t) fl =
          mfdSweep sx sy nd topo t (mfdRoute sx sy nd topo c fl) := rfl
      rw [hsweep, ih _ hsub' hnodup' hpair' hout']
      by_cases hcs : mfdSink sx sy nd topo c
      · have hfl : ∀ d, mfdRoute sx sy nd topo c fl d = fl d := by
          intro d
          unfold mfdRoute
          rw [mfdRoute_foldl_apply]
          have hzero : ((List.finRange 8).map
              (fun k => if mfdTarget sx sy c k = d
                then mfdFrac sx sy nd topo c k else 0)).sum = 0 := by
            apply List.sum_eq_zero
            intro x hx
            simp only [List.mem_map] at hx
            obtain ⟨k, -, rfl⟩ := hx
            rw [mfdFrac_sink_zero sx sy nd topo c hcs k]
            split_ifs <;> rfl
          rw [hzero]
          ring
        simp only [hfl]
        refine Finset.sum_congr ?_ (fun _ _ => rfl)
        apply Finset.filter_congr
        intro d _
        simp only [List.mem_cons]
        constructor
        · rintro (hs | hd)
          · exact Or.inl hs
          · exact Or.inr (Or.inr hd)
        · rintro (hs | rfl | hd)
          · exact Or.inl hs
          · exact Or.inl hcs
          · exact Or.inr hd
      · have hcs' := hcs
        unfold mfdSink at hcs'
        push_neg at hcs'
        obtain ⟨hcnd, k0, hk0⟩ := hcs'
        rw [mfdRoute_sum sx sy nd topo c fl]
        have htgt : (∑ k : Fin 8,
            if mfdTarget sx sy c k ∈ (gridFinset sx sy).filter
                (fun d => mfdSink sx sy nd topo d ∨ d ∈ t)
              then mfdFrac sx sy nd topo c k else 0) =
            ∑ k : Fin 8, mfdFrac sx sy nd topo c k := by
          refine Finset.sum_congr rfl (fun k _ => ?_)
          by_cases hl : mfdLower sx sy nd topo c k
          · rw [if_pos]
            rw [Finset.mem_filter]
            have htin : mfdTarget sx sy c k ∈ gridFinset sx sy := by
              rw [mem_gridFinset]
              exact mfdTarget_inGrid sx sy c k ((mem_gridFinset sx sy c).mp hcg)
            refine ⟨htin, ?_⟩
            by_cases hts : mfdSink sx sy nd topo (mfdTarget sx sy c k)
            · exact Or.inl hts
            · by_cases htt : mfdTarget sx sy c k ∈ t
              · exact Or.inr htt
              · exfalso
                have htc : mfdTarget sx sy c k ≠ c := by
                  intro h
                  have := hl.1
                  rw [h] at this
                  exact lt_irrefl _ this
                have hnint : mfdTarget sx sy c k ∉ c :: t := by
                  simp only [List.mem_cons]
                  push_neg
                  exact ⟨htc, htt⟩
                rcases hout _ htin hnint with hs | hs
                · exact hts hs
                · have := hs c (List.mem_cons_self c t)
                  exact absurd hl.1 (not_lt.mpr this)
          · have hfz : mfdFrac sx sy nd topo c k = 0 := by
              unfold mfdFrac
              rw [if_neg hcnd, if_neg hl]
            rw [hfz]
            split_ifs <;> rfl
        rw [htgt, mfdFrac_sum_one sx sy nd topo c hcnd k0 hk0, mul_one]
        have hcnotS : c ∉ (gridFinset sx sy).filter
            (fun d => mfdSink sx sy nd topo d ∨ d ∈ t) := by
          rw [Finset.mem_filter]
          rintro ⟨-, hs | hd'⟩
          · exact hcs hs
          · exact hcnott hd'
        have hS : (gridFinset sx sy).filter
            (fun d => mfdSink sx sy nd topo d ∨ d ∈ c :: t) =
            insert c ((gridFinset sx sy).filter
              (fun d => mfdSink sx sy nd topo d ∨ d ∈ t)) := by
          ext d
          simp only [Finset.mem_filter, Finset.mem_insert, List.mem_cons]
          constructor
          · rintro ⟨hd, hs | rfl | hd'⟩
            · exact Or.inr ⟨hd, Or.inl hs⟩
            · exact Or.inl rfl
            · exact Or.inr ⟨hd, Or.inr hd'⟩
          · rintro (rfl | ⟨hd, hs | hd'⟩)
            · exact ⟨hcg, Or.inr (Or.inl rfl)⟩
            · exact ⟨hd, Or.inl hs⟩
            · exact ⟨hd, Or.inr (Or.inr hd')⟩
        rw [hS, Finset.sum_insert hcnotS]
        ring

/-- C4, amended: every lattice cell — active or nodata — is seeded with its
cell area `deltax*deltay`; after a descending-elevation sweep visiting every
cell once, the flow held by the sink cells (cells with no strictly lower
valid target, nodata cells included) totals `deltax*deltay` times the number
of ALL lattice cells, not the active ones only; and no direction whose
clamped target is the cell itself carries a nonzero fraction, so no flow
leaves the grid across its border. -/
theorem mfdflowroute_c4_amended (sx sy : ℕ) (nd : ℚ) (topo : ℕ × ℕ → ℚ)
    (dx dy : ℝ) (order : List (ℕ × ℕ))
    (hperm : ∀ c, c ∈ order ↔ c ∈ gridFinset sx sy)
    (hnodup : order.Nodup)
    (hsorted : order.Pairwise (fun a b => topo b ≤ topo a)) :
    (∑ d ∈ (gridFinset sx sy).filter (fun d => mfdSink sx sy nd topo d),
      mfdSweep sx sy nd topo order (flowInit sx sy dx dy) d) =
      (gridFinset sx sy).card * (dx * dy) ∧
    (∀ c k, mfdTarget sx sy c k = c → mfdFrac sx sy nd topo c k = 0) := by
  constructor
  · rw [mfdSweep_sink_sum sx sy nd topo order _
      (fun c hc => (hperm c).mp hc) hnodup hsorted
      (fun d hd hdo => absurd ((hperm d).mpr hd) hdo)]
    have hfilter : (gridFinset sx sy).filter
        (fun d => mfdSink sx sy nd topo d ∨ d ∈ order) = gridFinset sx sy :=
      Finset.filter_true_of_mem (fun d hd => Or.inr ((hperm d).mpr hd))
    rw [hfilter]
    rw [Finset.sum_congr rfl (fun d hd => ?_), Finset.sum_const,
      nsmul_eq_mul]
    unfold flowInit
    rw [if_pos ((mem_gridFinset sx sy d).mp hd)]
  · intro c k h
    exact mfdFrac_self_zero sx sy nd topo c k h

/-- C4 counterexample: on the 1 × 1 grid whose single cell is nodata, the
total flow over the whole grid after the sweep is `deltax*deltay = 1`, while
the sum of cell areas over active (non-nodata) cells is `0` — the two
quantities the claim equates differ. -/
theorem mfdflowroute_c4_counterexample :
    (∑ d ∈ gridFinset 1 1,
      mfdSweep 1 1 (-9999) c4NodataGrid [(1, 1)] (flowInit 1 1 1 1) d) ≠
    ∑ d ∈ (gridFinset 1 1).filter
        (fun d => c4NodataGrid d ≠ (-9999 : ℚ)), ((1 : ℝ) * 1) := by
  have hg : gridFinset 1 1 = {(1, 1)} := by decide
  have hfilter : (gridFinset 1 1).filter
      (fun d => c4NodataGrid d ≠ (-9999 : ℚ)) = ∅ := by
    apply Finset.filter_false_of_mem
    intro d _
    simp [c4NodataGrid]
  rw [hfilter, hg, Finset.sum_empty, Finset.sum_singleton]
  have hsweep : mfdSweep 1 1 (-9999) c4NodataGrid [(1, 1)]
      (flowInit 1 1 1 1) (1, 1) = 1 := by
    show mfdRoute 1 1 (-9999) c4NodataGrid (1, 1) (flowInit 1 1 1 1) (1, 1) = 1
    unfold mfdRoute
    rw [mfdRoute_foldl_apply]
    have hzero : ((List.finRange 8).map
        (fun k => if mfdTarget 1 1 (1, 1) k = (1, 1)
          then mfdFrac 1 1 (-9999) c4NodataGrid (1, 1) k else 0)).sum = 0 := by
      apply List.sum_eq_zero
      intro x hx
      simp only [List.mem_map] at hx
      obtain ⟨k, -, rfl⟩ := hx
      have hfz : mfdFrac 1 1 (-9999) c4NodataGrid (1, 1) k = 0 := by
        simp [mfdFrac, c4NodataGrid]
      rw [hfz]
      split_ifs <;> rfl
    rw [hzero]
    unfold flowInit
    rw [if_pos (by decide)]
    ring
  rw [hsweep]
  norm_num

/-- Witness for `mfdflowroute_c4_amended` on the 1 × 1 valid grid: the
single-cell order is a descending duplicate-free enumeration of the grid,
and the sink total equals `1 × (deltax*deltay)`. -/
theorem mfdflowroute_c4_amended_witness :
    ((∀ c, c ∈ [((1, 1) : ℕ × ℕ)] ↔ c ∈ gridFinset 1 1) ∧
     ([((1, 1) : ℕ × ℕ)]).Nodup ∧
     ([((1, 1) : ℕ × ℕ)]).Pairwise
       (fun a b => c4OneCellGrid b ≤ c4OneCellGrid a)) ∧
    ((∑ d ∈ (gridFinset 1 1).filter
        (fun d => mfdSink 1 1 (-9999) c4OneCellGrid d),
      mfdSweep 1 1 (-9999) c4OneCellGrid [(1, 1)] (flowInit 1 1 1 1) d) =
      (gridFinset 1 1).card * ((1 : ℝ) * 1) ∧
     (∀ c k, mfdTarget 1 1 c k = c →
       mfdFrac 1 1 (-9999) c4OneCellGrid c k = 0)) := by
  have hperm : ∀ c, c ∈ [((1, 1) : ℕ × ℕ)] ↔ c ∈ gridFinset 1 1 := by
    intro c
    rw [mem_gridFinset, List.mem_singleton]
    constructor
    · rintro rfl
      exact ⟨le_rfl, le_rfl, le_rfl, le_rfl⟩
    · rintro ⟨h1, h2, h3, h4⟩
      have hc1 : c.1 = 1 := by omega
      have hc2 : c.2 = 1 := by omega
      exact Prod.ext hc1 hc2
  have hnodup : ([((1, 1) : ℕ × ℕ)]).Nodup := List.nodup_singleton _
  have hsorted : ([((1, 1) : ℕ × ℕ)]).Pairwise
      (fun a b => c4OneCellGrid b ≤ c4OneCellGrid a) :=
    List.pairwise_singleton _ _
  exact ⟨⟨hperm, hnodup, hsorted⟩,
    mfdflowroute_c4_amended 1 1 (-9999) c4OneCellGrid 1 1 [(1, 1)]
      hperm hnodup hsorted⟩

/-- C1 counterexample: at the center of `c1Grid` with metric cell sizes
`deltax = 2`, `deltay = 1`, the router's fraction toward the lower x-cardinal
neighbor is `1/2` (the code never divides the drop by a metric distance),
while the spec's formula `(drop/neighbor_distance)^1.1`, normalized, gives
`(1/2)^1.1 / ((1/2)^1.1 + 1) < 1/2`. -/
theorem mfdflowroute_c1_counterexample :
    mfdFrac 3 3 (-9999) c1Grid (2, 2) 0 ≠
      specFrac 3 3 (-9999) c1Grid (2, 2) 2 1 0 := by
  have h0 : mfdLower 3 3 (-9999) c1Grid (2, 2) 0 := by decide
  have h2 : mfdLower 3 3 (-9999) c1Grid (2, 2) 2 := by decide
  have h1n : ¬ mfdLower 3 3 (-9999) c1Grid (2, 2) 1 := by decide
  have h3n : ¬ mfdLower 3 3 (-9999) c1Grid (2, 2) 3 := by decide
  have h4n : ¬ mfdLower 3 3 (-9999) c1Grid (2, 2) 4 := by decide
  have h5n : ¬ mfdLower 3 3 (-9999) c1Grid (2, 2) 5 := by decide
  have h6n : ¬ mfdLower 3 3 (-9999) c1Grid (2, 2) 6 := by decide
  have h7n : ¬ mfdLower 3 3 (-9999) c1Grid (2, 2) 7 := by decide
  have hdrop0 : (c1Grid (2, 2) - c1Grid (mfdTarget 3 3 (2, 2) 0) : ℚ) = 1 := by
    rw [show c1Grid (2, 2) = 1 from rfl,
      show c1Grid (mfdTarget 3 3 (2, 2) 0) = 0 from rfl]
    norm_num
  have hdrop2 : (c1Grid (2, 2) - c1Grid (mfdTarget 3 3 (2, 2) 2) : ℚ) = 1 := by
    rw [show c1Grid (2, 2) = 1 from rfl,
      show c1Grid (mfdTarget 3 3 (2, 2) 2) = 0 from rfl]
    norm_num
  have hw0 : mfdWeight 3 3 c1Grid (2, 2) 0 = 1 := by
    unfold mfdWeight
    rw [if_pos (by decide : ((0 : Fin 8)).val < 4), hdrop0]
    rw [Rat.cast_one, Real.one_rpow]
  have hw2 : mfdWeight 3 3 c1Grid (2, 2) 2 = 1 := by
    unfold mfdWeight
    rw [if_pos (by decide : ((2 : Fin 8)).val < 4), hdrop2]
    rw [Rat.cast_one, Real.one_rpow]
  have htot : mfdTot 3 3 (-9999) c1Grid (2, 2) = 2 := by
    unfold mfdTot
    rw [Fin.sum_univ_eight]
    rw [if_pos h0, if_pos h2, if_neg h1n, if_neg h3n, if_neg h4n,
      if_neg h5n, if_neg h6n, if_neg h7n, hw0, hw2]
    norm_num
  have hnd : ¬ c1Grid (2, 2) = (-9999 : ℚ) := by decide
  have hcode : mfdFrac 3 3 (-9999) c1Grid (2, 2) 0 = 1 / 2 := by
    unfold mfdFrac
    rw [if_neg hnd, if_pos h0, hw0, htot]
  set a : ℝ := ((1 : ℝ) / 2) ^ (1.1 : ℝ) with ha
  have hp0 : specProxy 2 1 (c1Grid (2, 2) - c1Grid (mfdTarget 3 3 (2, 2) 0))
      0 = a := by
    unfold specProxy
    rw [if_pos (by decide : ((0 : Fin 8)).val < 2), hdrop0, Rat.cast_one]
  have hp2 : specProxy 2 1 (c1Grid (2, 2) - c1Grid (mfdTarget 3 3 (2, 2) 2))
      2 = 1 := by
    unfold specProxy
    rw [if_neg (by decide : ¬ ((2 : Fin 8)).val < 2),
      if_pos (by decide : ((2 : Fin 8)).val < 4), hdrop2, Rat.cast_one]
    rw [div_one, Real.one_rpow]
  have hstot : specTot 3 3 (-9999) c1Grid (2, 2) 2 1 = a + 1 := by
    unfold specTot
    rw [Fin.sum_univ_eight]
    rw [if_pos h0, if_pos h2, if_neg h1n, if_neg h3n, if_neg h4n,
      if_neg h5n, if_neg h6n, if_neg h7n, hp0, hp2]
    ring
  have hspec : specFrac 3 3 (-9999) c1Grid (2, 2) 2 1 0 = a / (a + 1) := by
    unfold specFrac
    rw [if_neg hnd, if_pos h0, hp0, hstot]
  have ha0 : 0 < a := Real.rpow_pos_of_pos (by norm_num) _
  have ha1 : a < 1 := Real.rpow_lt_one (by norm_num) (by norm_num) (by norm_num)
  rw [hcode, hspec]
  intro h
  have hne : a + 1 ≠ 0 := by positivity
  field_simp at h
  linarith

/-- C1, amended: the router's directional proxy is `drop^1.1` for a cardinal
direction and `(drop * 0.707106781187)^1.1` for a diagonal one — i.e. the
spec's `(drop/neighbor_distance)^1.1` with the distances fixed at one
lattice step (`1` cardinal, `≈ √2` diagonal), never the metric cell sizes
`deltax`/`deltay` — and the proxies are normalized by their sum over the
strictly lower valid directions: each qualifying fraction is
`weight / tot`, non-qualifying directions get `0`, the fractions sum to `1`
when a lower valid neighbor exists, and two cardinal directions with equal
drops always receive equal fractions regardless of the metric geometry. -/
theorem mfdflowroute_c1_amended (sx sy : ℕ) (nd : ℚ) (topo : ℕ × ℕ → ℚ)
    (c : ℕ × ℕ) (hnd : topo c ≠ nd) :
    (∀ k, mfdLower sx sy nd topo c k →
      mfdFrac sx sy nd topo c k =
        mfdWeight sx sy topo c k / mfdTot sx sy nd topo c) ∧
    (∀ k, ¬ mfdLower sx sy nd topo c k → mfdFrac sx sy nd topo c k = 0) ∧
    ((∃ k0, mfdLower sx sy nd topo c k0) →
      ∑ k : Fin 8, mfdFrac sx sy nd topo c k = 1) ∧
    (∀ k k' : Fin 8, k.val < 4 → k'.val < 4 →
      mfdLower sx sy nd topo c k → mfdLower sx sy nd topo c k' →
      topo (mfdTarget sx sy c k) = topo (mfdTarget sx sy c k') →
      mfdFrac sx sy nd topo c k = mfdFrac sx sy nd topo c k') := by
  refine ⟨?_, ?_, ?_, ?_⟩
  · intro k hk
    unfold mfdFrac
    rw [if_neg hnd, if_pos hk]
  · intro k hk
    unfold mfdFrac
    rw [if_neg hnd, if_neg hk]
  · rintro ⟨k0, hk0⟩
    exact mfdFrac_sum_one sx sy nd topo c hnd k0 hk0
  · intro k k' hc4 hc4' hk hk' hdrop
    unfold mfdFrac
    rw [if_neg hnd, if_neg hnd, if_pos hk, if_pos hk']
    unfold mfdWeight
    rw [if_pos hc4, if_pos hc4', hdrop]

/-- Witness for `mfdflowroute_c1_amended` at the center of `c1Grid`: the two
qualifying cardinal directions have equal drops and indeed receive equal
fractions. -/
theorem mfdflowroute_c1_amended_witness :
    (c1Grid (2, 2) ≠ (-9999 : ℚ)) ∧
    mfdLower 3 3 (-9999) c1Grid (2, 2) 0 ∧
    mfdLower 3 3 (-9999) c1Grid (2, 2) 2 ∧
    c1Grid (mfdTarget 3 3 (2, 2) 0) = c1Grid (mfdTarget 3 3 (2, 2) 2) ∧
    mfdFrac 3 3 (-9999) c1Grid (2, 2) 0 =
      mfdFrac 3 3 (-9999) c1Grid (2, 2) 2 := by
  have hnd : c1Grid (2, 2) ≠ (-9999 : ℚ) := by decide
  have h0 : mfdLower 3 3 (-9999) c1Grid (2, 2) 0 := by decide
  have h2 : mfdLower 3 3 (-9999) c1Grid (2, 2) 2 := by decide
  have hdrop : c1Grid (mfdTarget 3 3 (2, 2) 0) =
      c1Grid (mfdTarget 3 3 (2, 2) 2) := by decide
  exact ⟨hnd, h0, h2, hdrop,
    (mfdflowroute_c1_amended 3 3 (-9999) c1Grid (2, 2) hnd).2.2.2 0 2
      (by decide) (by decide) h0 h2 hdrop⟩

/-- The safety clamp keeps `tanbeta_pixel` at or above the floor. -/
theorem tanbetaPixel_ge_floor (dx dy : ℝ) (nd celev : ℚ) (ne : Fin 8 → ℚ) :
    minTanbeta dx dy ≤ tanbetaPixel dx dy nd celev ne := by
  unfold tanbetaPixel
  split_ifs with h
  · exact le_rfl
  · exact le_of_not_lt h

/-- The diagonal cell size is positive for positive cell sizes. -/
theorem lengthDiagonal_pos (dx dy : ℝ) (hdx : 0 < dx) (hdy : 0 < dy) :
    0 < lengthDiagonal dx dy :=
  Real.sqrt_pos.mpr (by positivity)

/-- The tan(beta) floor is positive for positive cell sizes. -/
theorem minTanbeta_pos (dx dy : ℝ) (hdx : 0 < dx) (hdy : 0 < dy) :
    0 < minTanbeta dx dy := by
  have hld := lengthDiagonal_pos dx dy hdx hdy
  have hv : (0 : ℝ) < 0.5 * VERTRES := by norm_num [VERTRES]
  unfold minTanbeta
  have t1 : 0 < 4 * ((0.5 * VERTRES) / lengthDiagonal dx dy) := by
    have := div_pos hv hld
    linarith
  have t2 : 0 < 2.0 * ((0.5 * VERTRES) / dx) := by
    have := div_pos hv hdx
    linarith
  have t3 : 0 < 2.0 * ((0.5 * VERTRES) / dy) := by
    have := div_pos hv hdy
    linarith
  have h8 : (0 : ℝ) < 8 := by norm_num
  exact div_pos (by linarith) h8

/-- Every per-direction contour weight is positive. -/
theorem tiWeight_pos (dx dy : ℝ) (hdx : 0 < dx) (hdy : 0 < dy) (n : Fin 8) :
    0 < tiWeight dx dy n := by
  unfold tiWeight
  split_ifs <;> linarith

/-- With at least one lower valid neighbor, the accumulated contour length
is positive. -/
theorem contourLenSum_pos (dx dy : ℝ) (nd celev : ℚ) (ne : Fin 8 → ℚ)
    (hdx : 0 < dx) (hdy : 0 < dy) (h : lowerCount nd celev ne ≠ 0) :
    0 < contourLenSum dx dy nd celev ne := by
  obtain ⟨n, hn⟩ := Finset.card_pos.mp (Nat.pos_of_ne_zero h)
  rw [Finset.mem_filter] at hn
  unfold contourLenSum
  refine Finset.sum_pos' (fun k _ => ?_) ⟨n, Finset.mem_univ n, ?_⟩
  · split_ifs
    · exact le_of_lt (tiWeight_pos dx dy hdx hdy k)
    · exact le_rfl
  · rw [if_pos hn.2]
    exact tiWeight_pos dx dy hdx hdy n

/-- C6: the final per-cell `tanbeta_pixel` never falls below the fixed floor
`(4*(0.5*VERTRES/length_diagonal) + 2*(0.5*VERTRES/dx) +
2*(0.5*VERTRES/dy))/8`: the floor is substituted outright when the cell has
no lower valid neighbor, and the weighted average is clamped up to the floor
when lower neighbors exist but yield a smaller value. -/
theorem topindex_c6_floor (dx dy : ℝ) (nd celev : ℚ) (ne : Fin 8 → ℚ) :
    minTanbeta dx dy ≤ tanbetaPixel dx dy nd celev ne ∧
    (lowerCount nd celev ne = 0 →
      tanbetaPixel dx dy nd celev ne = minTanbeta dx dy) ∧
    (lowerCount nd celev ne ≠ 0 →
      tanbetaSum dx dy nd celev ne / contourLenSum dx dy nd celev ne <
        minTanbeta dx dy →
      tanbetaPixel dx dy nd celev ne = minTanbeta dx dy) := by
  refine ⟨tanbetaPixel_ge_floor dx dy nd celev ne, ?_, ?_⟩
  · intro h
    unfold tanbetaPixel tanbetaPixelPre
    simp only [if_pos h]
    split_ifs <;> rfl
  · intro h hlt
    unfold tanbetaPixel tanbetaPixelPre
    simp only [if_neg h]
    rw [if_pos hlt]

/-- Witness for `topindex_c6_floor` at a cell with no lower valid neighbor
(all eight neighbor entries nodata): the floor is substituted. -/
theorem topindex_c6_floor_witness :
    lowerCount (-9999) 1 (fun _ => -9999) = 0 ∧
    minTanbeta 3 4 ≤ tanbetaPixel 3 4 (-9999) 1 (fun _ => -9999) ∧
    tanbetaPixel 3 4 (-9999) 1 (fun _ => -9999) = minTanbeta 3 4 := by
  have h0 : lowerCount (-9999) 1 (fun _ => (-9999 : ℚ)) = 0 := by decide
  have hmain := topindex_c6_floor 3 4 (-9999) 1 (fun _ => (-9999 : ℚ))
  exact ⟨h0, hmain.1, hmain.2.1 h0⟩

/-- C10: no division in the core pipeline divides by zero.  In
`mfdflowroute` a fraction `pow(drop,1.1)/tot` is computed only under the
strictly-lower-valid guard, which makes `tot` strictly positive; in
`Topindex`, for positive cell sizes, the final contour length and
`tanbeta_pixel` are strictly positive for every cell (the `lower == 0`
branch sets them to `2*dx+2*dy` and the positive floor), so the `TWI`
division is well-defined. -/
theorem division_safety_c10 :
    (∀ (sx sy : ℕ) (nd : ℚ) (topo : ℕ × ℕ → ℚ) (c : ℕ × ℕ) (k : Fin 8),
      mfdLower sx sy nd topo c k → 0 < mfdTot sx sy nd topo c) ∧
    (∀ (dx dy : ℝ) (nd celev : ℚ) (ne : Fin 8 → ℚ), 0 < dx → 0 < dy →
      0 < contourLength dx dy nd celev ne ∧
      0 < tanbetaPixel dx dy nd celev ne ∧
      contourLength dx dy nd celev ne * tanbetaPixel dx dy nd celev ne ≠ 0) := by
  constructor
  · intro sx sy nd topo c k hk
    exact mfdTot_pos sx sy nd topo c k hk
  · intro dx dy nd celev ne hdx hdy
    have hcl : 0 < contourLength dx dy nd celev ne := by
      unfold contourLength
      split_ifs with h
      · linarith
      · refine div_pos (contourLenSum_pos dx dy nd celev ne hdx hdy h) ?_
        exact_mod_cast Nat.pos_of_ne_zero h
    have htb : 0 < tanbetaPixel dx dy nd celev ne :=
      lt_of_lt_of_le (minTanbeta_pos dx dy hdx hdy)
        (tanbetaPixel_ge_floor dx dy nd celev ne)
    exact ⟨hcl, htb, ne_of_gt (mul_pos hcl htb)⟩

/-- Witness for `division_safety_c10`: positive `tot` at the center of
`c1Grid`, and positive contour length and `tanbeta_pixel` at a concrete
`Topindex` cell. -/
theorem division_safety_c10_witness :
    mfdLower 3 3 (-9999) c1Grid (2, 2) 0 ∧
    0 < mfdTot 3 3 (-9999) c1Grid (2, 2) ∧
    ((0 : ℝ) < 3 ∧ (0 : ℝ) < 4 ∧
      0 < contourLength 3 4 (-9999) 1 (fun _ => -9999) ∧
      0 < tanbetaPixel 3 4 (-9999) 1 (fun _ => -9999)) := by
  have h0 : mfdLower 3 3 (-9999) c1Grid (2, 2) 0 := by decide
  have h3 : (0 : ℝ) < 3 := by norm_num
  have h4 : (0 : ℝ) < 4 := by norm_num
  have hmain := division_safety_c10
  exact ⟨h0, hmain.1 3 3 (-9999) c1Grid (2, 2) 0 h0,
    h3, h4, (hmain.2 3 4 (-9999) 1 (fun _ => -9999) h3 h4).1,
    (hmain.2 3 4 (-9999) 1 (fun _ => -9999) h3 h4).2.1⟩

/-- C3 counterexample: a final cumulative area fraction that falls short of
`waterVeg + wetlandVeg` by a full `1` — a disagreement far beyond the
`1e-5` tolerance, in the negative direction — does not abort: the check is
one-sided. -/
theorem viccalculation_c3_counterexample :
    |(0 : ℚ) - (1 + 0)| > profileTol ∧ ¬ ProfileAborts 0 1 0 := by
  constructor
  · norm_num [profileTol]
  · norm_num [ProfileAborts, profileTol]

/-- C3, amended: the consistency check aborts exactly when the final
cumulative area fraction exceeds `waterVeg + wetlandVeg` by more than
`1e-5`; a deficit of any size — the other direction of disagreement — never
aborts. -/
theorem viccalculation_c3_amended (a w wl : ℚ) :
    (a - (w + wl) > profileTol → ProfileAborts a w wl) ∧
    (a ≤ w + wl → ¬ ProfileAborts a w wl) := by
  constructor
  · exact fun h => h
  · intro h hab
    unfold ProfileAborts at hab
    have htol : (0 : ℚ) < profileTol := by norm_num [profileTol]
    linarith

/-- Witness for `viccalculation_c3_amended`: a surplus of `1` aborts, a
deficit of `1` does not. -/
theorem viccalculation_c3_amended_witness :
    ((1 : ℚ) - (0 + 0) > profileTol ∧ ProfileAborts 1 0 0) ∧
    ((0 : ℚ) ≤ 1 + 0 ∧ ¬ ProfileAborts 0 1 0) := by
  have h1 : (1 : ℚ) - (0 + 0) > profileTol := by norm_num [profileTol]
  have h2 : (0 : ℚ) ≤ 1 + 0 := by norm_num
  exact ⟨⟨h1, (viccalculation_c3_amended 1 0 0).1 h1⟩,
    ⟨h2, (viccalculation_c3_amended 0 1 0).2 h2⟩⟩

/-- C5: with a positive water fraction there are exactly `4` lake bins, the
depth follows the two-segment regression on the lake area in km² (linear
below `40.9375`, the constant `4.17` at or above) and is positive, `DEMSUM`
rises in `4` equal increments of `LakeDepth/4`, and the cumulative lake-bin
area at bin `i` equals `waterVeg*sqrt(DEMSUM[i]/LakeDepth)
= waterVeg*sqrt(i/4)`; with no water fraction, `LakeBins = 0` and
`LakeDepth = 0`. -/
theorem viccalculation_c5 (waterVeg totalVeg dx dy : ℚ) :
    (0 < waterVeg →
      LakeBins waterVeg = 4 ∧
      0 < LakeDepth waterVeg totalVeg dx dy ∧
      (LakeArea waterVeg totalVeg dx dy < 40.9375 →
        LakeDepth waterVeg totalVeg dx dy =
          7.04 - 0.07 * LakeArea waterVeg totalVeg dx dy) ∧
      (40.9375 ≤ LakeArea waterVeg totalVeg dx dy →
        LakeDepth waterVeg totalVeg dx dy = 4.17) ∧
      (∀ i : ℕ,
        DEMSUMlake (LakeDepth waterVeg totalVeg dx dy) (LakeBins waterVeg) i
          = (i : ℚ) * (LakeDepth waterVeg totalVeg dx dy / 4)) ∧
      (∀ i : ℕ, 1 ≤ i → i ≤ 4 →
        AREASUMlake waterVeg (LakeDepth waterVeg totalVeg dx dy)
            (LakeBins waterVeg) i
          = (waterVeg : ℝ) * Real.sqrt ((i : ℝ) / 4))) ∧
    (waterVeg ≤ 0 → LakeBins waterVeg = 0 ∧
      LakeDepth waterVeg totalVeg dx dy = 0) := by
  constructor
  · intro hw
    have hbins : LakeBins waterVeg = 4 := by
      unfold LakeBins
      rw [if_pos hw]
    have hdepth_pos : 0 < LakeDepth waterVeg totalVeg dx dy := by
      unfold LakeDepth
      rw [if_pos hw]
      split_ifs with h
      · linarith
      · norm_num
    have hdem : ∀ i : ℕ,
        DEMSUMlake (LakeDepth waterVeg totalVeg dx dy) (LakeBins waterVeg) i
          = (i : ℚ) * (LakeDepth waterVeg totalVeg dx dy / 4) := by
      intro i
      rw [hbins]
      induction i with
      | zero => simp [DEMSUMlake]
      | succ i ih =>
          rw [DEMSUMlake, ih]
          push_cast
          ring
    refine ⟨hbins, hdepth_pos, ?_, ?_, hdem, ?_⟩
    · intro h
      unfold LakeDepth
      rw [if_pos hw, if_pos h]
    · intro h
      unfold LakeDepth
      rw [if_pos hw, if_neg (not_lt.mpr h)]
    · intro i h1 h4
      unfold AREASUMlake
      rw [if_neg (by omega)]
      congr 1
      rw [hdem i]
      have hld : LakeDepth waterVeg totalVeg dx dy ≠ 0 := ne_of_gt hdepth_pos
      have hq : ((i : ℚ) * (LakeDepth waterVeg totalVeg dx dy / 4) /
          LakeDepth waterVeg totalVeg dx dy : ℚ) = (i : ℚ) / 4 := by
        field_simp
        ring
      rw [hq]
      push_cast
      ring
  · intro hw
    have h : ¬ 0 < waterVeg := not_lt.mpr hw
    unfold LakeBins LakeDepth
    rw [if_neg h, if_neg h]
    exact ⟨rfl, rfl⟩

/-- Witness for `viccalculation_c5`: a half-water cell of 10 cells of
`1000 m × 1000 m` (lake area `5 km²`, on the linear regression segment). -/
theorem viccalculation_c5_witness :
    (0 < (1 / 2 : ℚ)) ∧ LakeBins (1 / 2) = 4 ∧
    0 < LakeDepth (1 / 2) 10 1000 1000 ∧
    DEMSUMlake (LakeDepth (1 / 2) 10 1000 1000) (LakeBins (1 / 2)) 2 =
      ((2 : ℕ) : ℚ) * (LakeDepth (1 / 2) 10 1000 1000 / 4) ∧
    AREASUMlake (1 / 2) (LakeDepth (1 / 2) 10 1000 1000) (LakeBins (1 / 2)) 2
      = ((1 / 2 : ℚ) : ℝ) * Real.sqrt (((2 : ℕ) : ℝ) / 4) := by
  have hw : 0 < (1 / 2 : ℚ) := by norm_num
  have h := (viccalculation_c5 (1 / 2) 10 1000 1000).1 hw
  exact ⟨hw, h.1, h.2.1, h.2.2.2.2.1 2,
    h.2.2.2.2.2 2 (by norm_num) (by norm_num)⟩

/-- The binning loop emits at least one bin when cells remain. -/
theorem wetlandBinCounts_ne_nil (T crit : ℚ) :
    ∀ (m acc : ℕ), m ≠ 0 → wetlandBinCounts T crit m acc ≠ [] := by
  intro m
  induction m with
  | zero => intro acc h; exact absurd rfl h
  | succ m ih =>
      intro acc _
      rw [wetlandBinCounts]
      split_ifs with h
      · exact List.cons_ne_nil _ _
      · rcases not_or.mp h with ⟨-, h2⟩
        exact ih (acc + 1) h2

/-- Every bin the loop closes before exhausting the cells holds at least the
target fraction and less than the target plus one cell's fraction. -/
theorem wetlandBinCounts_bounds (T crit : ℚ) (hT : 0 < T)
    (hcrit : 0 < crit) :
    ∀ (m acc : ℕ), (acc : ℚ) / T < crit →
      ∀ b ∈ (wetlandBinCounts T crit m acc).dropLast,
        crit ≤ (b : ℚ) / T ∧ (b : ℚ) / T < crit + 1 / T := by
  intro m
  induction m with
  | zero =>
      intro acc _ b hb
      simp [wetlandBinCounts] at hb
  | succ m ih =>
      intro acc hacc b hb
      rw [wetlandBinCounts] at hb
      split_ifs at hb with hcond
      · by_cases hm : m = 0
        · subst hm
          simp [wetlandBinCounts] at hb
        · have hne := wetlandBinCounts_ne_nil T crit m 0 hm
          rw [List.dropLast_cons_of_ne_nil hne] at hb
          rcases List.mem_cons.mp hb with rfl | hb'
          · have hcl : crit ≤ ((acc : ℚ) + 1) / T := by
              rcases hcond with h | h
              · exact h
              · exact absurd h hm
            constructor
            · push_cast
              exact hcl
            · push_cast
              rw [← div_add_div_same]
              linarith
          · refine ih 0 ?_ b hb'
            rw [Nat.cast_zero, zero_div]
            exact hcrit
      · rcases not_or.mp hcond with ⟨hlt, -⟩
        push_neg at hlt
        refine ih (acc + 1) ?_ b hb
        push_cast
        exact hlt

/-- C9 counterexample: with `totalVeg = 10` cells of which `n = 6` are
wetland (`wetlandVeg = 0.6`), `WetBins = ceil(0.6/0.091) = 7` and the
recomputed target is `0.6/7 = 3/35`; the very first closed bin holds one
cell, a fraction `1/10 > 3/35` — a non-last bin holding MORE than the
recomputed fraction. -/
theorem viccalculation_c9_counterexample :
    ∃ b ∈ (wetlandBinCounts 10 (areacriteriaRe (6 / 10)) 6 0).dropLast,
      areacriteriaRe (6 / 10) < (b : ℚ) / 10 := by
  have hwb : WetBins (6 / 10) = 7 := by
    unfold WetBins
    rw [if_pos (by norm_num)]
    have hc : Int.ceil ((6 / 10 : ℚ) / (91 / 1000)) = 7 := by
      rw [show ((6 / 10 : ℚ) / (91 / 1000)) = 600 / 91 by norm_num]
      rw [Int.ceil_eq_iff]
      constructor <;> norm_num
    rw [hc]
    decide
  have hcrit : areacriteriaRe (6 / 10) = 3 / 35 := by
    unfold areacriteriaRe
    rw [hwb]
    norm_num
  rw [hcrit]
  have hbins : wetlandBinCounts 10 (3 / 35) 6 0 = [1, 1, 1, 1, 1, 1] := by
    norm_num [wetlandBinCounts]
  rw [hbins]
  refine ⟨1, ?_, by norm_num⟩
  simp

/-- C9, amended: with a positive wetland fraction the bin count is
`ceil(wetlandVeg/0.091)` raised to a minimum of `5`, and with the target
recomputed as `wetlandVeg/WetBins` every bin closed before the cell list
runs out holds AT LEAST the recomputed target fraction — not at most — and
less than the target plus one cell's fraction `1/totalVeg`; only the last
bin may fall short. -/
theorem viccalculation_c9_amended (wetlandVeg T : ℚ) (n : ℕ)
    (hw : 0 < wetlandVeg) (hT : 0 < T) :
    WetBins wetlandVeg =
      max 5 (Int.ceil (wetlandVeg / (91 / 1000 : ℚ))).toNat ∧
    ∀ b ∈ (wetlandBinCounts T (areacriteriaRe wetlandVeg) n 0).dropLast,
      areacriteriaRe wetlandVeg ≤ (b : ℚ) / T ∧
      (b : ℚ) / T < areacriteriaRe wetlandVeg + 1 / T := by
  have hz : 0 < Int.ceil (wetlandVeg / (91 / 1000 : ℚ)) :=
    Int.ceil_pos.mpr (div_pos hw (by norm_num))
  have hwb : WetBins wetlandVeg =
      max 5 (Int.ceil (wetlandVeg / (91 / 1000 : ℚ))).toNat := by
    unfold WetBins
    rw [if_pos hw]
    split_ifs with h <;> omega
  refine ⟨hwb, ?_⟩
  have hwbpos : 0 < (WetBins wetlandVeg : ℚ) := by
    have h5 : 0 < WetBins wetlandVeg := by omega
    exact_mod_cast h5
  have hcrit : 0 < areacriteriaRe wetlandVeg := div_pos hw hwbpos
  refine wetlandBinCounts_bounds T (areacriteriaRe wetlandVeg) hT hcrit n 0 ?_
  rw [Nat.cast_zero, zero_div]
  exact hcrit

/-- Witness for `viccalculation_c9_amended` at `wetlandVeg = 0.6`,
`totalVeg = 10`, `n = 6` wetland cells. -/
theorem viccalculation_c9_amended_witness :
    (0 < (6 / 10 : ℚ) ∧ (0 : ℚ) < 10) ∧
    WetBins (6 / 10) =
      max 5 (Int.ceil ((6 / 10 : ℚ) / (91 / 1000 : ℚ))).toNat ∧
    ∀ b ∈ (wetlandBinCounts 10 (areacriteriaRe (6 / 10)) 6 0).dropLast,
      areacriteriaRe (6 / 10) ≤ (b : ℚ) / 10 ∧
      (b : ℚ) / 10 < areacriteriaRe (6 / 10) + 1 / 10 := by
  have hw : 0 < (6 / 10 : ℚ) := by norm_num
  have hT : (0 : ℚ) < 10 := by norm_num
  have h := viccalculation_c9_amended (6 / 10) 10 6 hw hT
  exact ⟨⟨hw, hT⟩, h.1, h.2⟩

end VICPre
